import Mathlib

/-!
Verification development for the rustdns repository: a shallow embedding of
the DNS wire codec (BytePacketBuffer, QueryType, DnsQuestion, DnsRecord,
DnsHeader, DnsPacket) and of the resolver and server driver functions, with
theorems settling the specification claims.

Modelling conventions:
* Machine integers (u8, u16, u32, usize) are modelled as Nat; the numeric
  casts of the source are modelled by explicit `% 256` and friends at the
  exact places the source casts.
* The fixed `[u8; 512]` array is modelled as a function `Nat → Nat` together
  with explicit index guards: every place the source indexes the array is
  guarded either by the check the source performs, or by an explicit model of
  the abort (index panic) Rust performs on an out-of-bounds index.
* Fallible operations return `Except BufErr`; a `&mut self` method becomes a
  function from the buffer state to `Except BufErr` of (result, new state).
* Rust `String` values that hold domain names are modelled as `List Nat` of
  their bytes; the `String::from_utf8_lossy` + `to_lowercase` post-processing
  of label bytes is modelled bytewise by `lowerByte`, the ASCII case fold,
  which coincides with the source exactly on ASCII bytes; the round-trip
  theorems therefore restrict their supported name set to ASCII bytes
  (`wfName`), and no theorem constrains the value of a decoded name outside
  that set.
* The buffer-local loop of `read_qname` is modelled with an explicit fuel
  parameter; a dedicated theorem shows the fuel is never exhausted, which is
  the shallow-embedding form of the termination claim.
-/

/-- Update the model of a byte array at one index. -/
def updFn (f : Nat → Nat) (i v : Nat) : Nat → Nat :=
  fun j => if j = i then v else f j

/-- Error outcomes of buffer operations. `endOfBuffer` models the
`Err("End of buffer")` value, `jumpLimit` the `Limit of 5 jumps exceeded`
error, `labelTooLong` the over-63-byte label error, `panicIndex` an
out-of-bounds slice index abort (a Rust panic, which is not a `Result` error
but also terminates the computation), and `fuelOut` is an artifact of the
fuel-based embedding of the `read_qname` loop, proved unreachable. -/
inductive BufErr where
  | endOfBuffer : BufErr
  | jumpLimit : BufErr
  | labelTooLong : BufErr
  | panicIndex : BufErr
  | fuelOut : BufErr
deriving DecidableEq

/-- The `BytePacketBuffer` struct: a 512-byte array and a cursor. The array
is a total function on Nat; only indices below 512 are ever consulted (every
access is guarded, see the operations below). -/
structure BytePacketBuffer where
  buf : Nat → Nat
  pos : Nat

/-- `BytePacketBuffer::new()`: zeroed array, cursor at 0. -/
def BytePacketBuffer.new : BytePacketBuffer :=
  { buf := fun _ => 0, pos := 0 }

/-- `step`: advances the cursor by `steps`. The source performs no bounds
check here. -/
def BytePacketBuffer.step (s : BytePacketBuffer) (steps : Nat) :
    Except BufErr BytePacketBuffer :=
  .ok { s with pos := s.pos + steps }

/-- `seek`: sets the cursor. The source performs no bounds check here. -/
def BytePacketBuffer.seek (s : BytePacketBuffer) (p : Nat) :
    Except BufErr BytePacketBuffer :=
  .ok { s with pos := p }

/-- `read`: one byte at the cursor, advancing it; fails when the cursor is at
or past 512. -/
def BytePacketBuffer.read (s : BytePacketBuffer) :
    Except BufErr (Nat × BytePacketBuffer) :=
  if 512 ≤ s.pos then .error .endOfBuffer
  else .ok (s.buf s.pos, { s with pos := s.pos + 1 })

/-- `get`: one byte at the requested position `p` without moving the cursor.
The guard of the source tests `self.pos`, not `p`; when the guard passes but
`p` is out of range the array index aborts (modelled by `panicIndex`). -/
def BytePacketBuffer.get (s : BytePacketBuffer) (p : Nat) :
    Except BufErr Nat :=
  if 512 ≤ s.pos then .error .endOfBuffer
  else if p < 512 then .ok (s.buf p)
  else .error .panicIndex

/-- `get_range`: the bytes at `start..start+len`; the source rejects the
range whenever `start + len >= 512`. -/
def BytePacketBuffer.get_range (s : BytePacketBuffer) (start len : Nat) :
    Except BufErr (List Nat) :=
  if 512 ≤ start + len then .error .endOfBuffer
  else .ok ((List.range len).map fun i => s.buf (start + i))

/-- `read_u16`: two `read` calls combined big-endian
(`(hi << 8) | lo` with `hi`, `lo` bytes, written arithmetically). -/
def BytePacketBuffer.read_u16 (s : BytePacketBuffer) :
    Except BufErr (Nat × BytePacketBuffer) :=
  match s.read with
  | .error e => .error e
  | .ok (hi, s1) =>
    match s1.read with
    | .error e => .error e
    | .ok (lo, s2) => .ok (hi * 256 + lo, s2)

/-- `read_u32`: four `read` calls combined big-endian. -/
def BytePacketBuffer.read_u32 (s : BytePacketBuffer) :
    Except BufErr (Nat × BytePacketBuffer) :=
  match s.read_u16 with
  | .error e => .error e
  | .ok (hi, s1) =>
    match s1.read_u16 with
    | .error e => .error e
    | .ok (lo, s2) => .ok (hi * 65536 + lo, s2)

/-- Bytewise model of `String::from_utf8_lossy(..).to_lowercase()`: fold
A..Z to a..z, keep every other byte. This equals the source transformation
exactly on ASCII bytes (below 128), where `from_utf8_lossy` is the identity
and `to_lowercase` is the ASCII case fold; outside ASCII the source
performs Unicode lowercasing and U+FFFD replacement of invalid UTF-8,
which this byte-level model does not reproduce. Accordingly no theorem of
this development asserts anything about the value of a decoded name
containing bytes at or above 128 — the round-trip domain `wfName` requires
ASCII bytes, and the claims about the loop of `read_qname` itself
(termination, its errors, its cursor moves) do not depend on the
accumulated name value. -/
def lowerByte (b : Nat) : Nat :=
  if 65 ≤ b ∧ b ≤ 90 then b + 32 else b

/-- Loop body of `read_qname`, with explicit fuel. Arguments mirror the local
state of the source loop: the local position `p`, the `jumped` flag, the
`jumps_performed` counter, the accumulated output bytes `acc` and the current
delimiter `delim` (empty before the first label, a dot afterwards). The
pointer test `(len & 0xC0) == 0xC0` and the offset computation
`((len ^ 0xC0) << 8) | b2` are written arithmetically, equivalently for byte
values. -/
def readQnameAux (s : BytePacketBuffer) :
    Nat → Nat → Bool → Nat → List Nat → List Nat →
    Except BufErr (List Nat × BytePacketBuffer)
  | 0, _, _, _, _, _ => .error .fuelOut
  | fuel + 1, p, jumped, jumps, acc, delim =>
    if 5 < jumps then .error .jumpLimit
    else
      match s.get p with
      | .error e => .error e
      | .ok len =>
        if 192 ≤ len then
          -- compression pointer: on the first jump save the shared cursor
          -- two bytes past the pointer
          let s1 := if !jumped then { s with pos := p + 2 } else s
          match s1.get (p + 1) with
          | .error e => .error e
          | .ok b2 =>
            readQnameAux s1 fuel ((len - 192) * 256 + b2) true (jumps + 1)
              acc delim
        else
          if len = 0 then
            -- terminating empty label; outside the loop the source seeks
            -- to one past it when no jump happened
            .ok (acc, if !jumped then { s with pos := p + 1 } else s)
          else
            match s.get_range (p + 1) len with
            | .error e => .error e
            | .ok bytes =>
              readQnameAux s fuel (p + 1 + len) jumped jumps
                (acc ++ delim ++ bytes.map lowerByte) [46]

/-- `read_qname`: decode a (possibly compressed) domain name starting at the
shared cursor, returning the dotted lowercase name bytes and the updated
buffer. Fuel 4200 exceeds the worst-case iteration count (proved in the
termination theorem). -/
def BytePacketBuffer.read_qname (s : BytePacketBuffer) :
    Except BufErr (List Nat × BytePacketBuffer) :=
  readQnameAux s 4200 s.pos false 0 [] []

/-- `write`: store one byte at the cursor (the `% 256` models the u8
parameter type), advancing; fails when the cursor is at or past 512. -/
def BytePacketBuffer.write (s : BytePacketBuffer) (v : Nat) :
    Except BufErr BytePacketBuffer :=
  if 512 ≤ s.pos then .error .endOfBuffer
  else .ok { buf := updFn s.buf s.pos (v % 256), pos := s.pos + 1 }

/-- `write_u8`: same as `write`. -/
def BytePacketBuffer.write_u8 (s : BytePacketBuffer) (v : Nat) :
    Except BufErr BytePacketBuffer :=
  s.write v

/-- `write_u16`: high byte (`(val >> 8) as u8`) then low byte
(`(val & 0xFF) as u8`). -/
def BytePacketBuffer.write_u16 (s : BytePacketBuffer) (v : Nat) :
    Except BufErr BytePacketBuffer :=
  match s.write (v / 256) with
  | .error e => .error e
  | .ok s1 => s1.write v

/-- `write_u32`: the four bytes of `v`, most significant first. -/
def BytePacketBuffer.write_u32 (s : BytePacketBuffer) (v : Nat) :
    Except BufErr BytePacketBuffer :=
  match s.write (v / 16777216) with
  | .error e => .error e
  | .ok s1 =>
    match s1.write (v / 65536) with
    | .error e => .error e
    | .ok s2 =>
      match s2.write (v / 256) with
      | .error e => .error e
      | .ok s3 => s3.write v

/-- Model of Rust `split('.')` on the byte list of a name: splits on byte 46,
always yields at least one (possibly empty) label, and yields empty labels
for leading, trailing or doubled dots, exactly as the source iterator does. -/
def splitOnDot : List Nat → List (List Nat)
  | [] => [[]]
  | b :: rest =>
    if b = 46 then [] :: splitOnDot rest
    else
      match splitOnDot rest with
      | [] => [[b]]
      | g :: gs => (b :: g) :: gs

/-- Inner loop of `write_qname` over one label: write each byte. -/
def writeLabelBytes : BytePacketBuffer → List Nat →
    Except BufErr BytePacketBuffer
  | s, [] => .ok s
  | s, b :: bs =>
    match s.write_u8 b with
    | .error e => .error e
    | .ok s1 => writeLabelBytes s1 bs

/-- Outer loop of `write_qname` over the labels: reject labels longer than
0x3f, else write the length byte then the bytes. -/
def writeLabels : BytePacketBuffer → List (List Nat) →
    Except BufErr BytePacketBuffer
  | s, [] => .ok s
  | s, lab :: rest =>
    if 63 < lab.length then .error .labelTooLong
    else
      match s.write_u8 lab.length with
      | .error e => .error e
      | .ok s1 =>
        match writeLabelBytes s1 lab with
        | .error e => .error e
        | .ok s2 => writeLabels s2 rest

/-- `write_qname`: length-prefixed labels, then a zero terminator. -/
def BytePacketBuffer.write_qname (s : BytePacketBuffer) (name : List Nat) :
    Except BufErr BytePacketBuffer :=
  match writeLabels s (splitOnDot name) with
  | .error e => .error e
  | .ok s1 => s1.write_u8 0

/-- `set`: store one byte at an arbitrary position. The source performs no
bounds check; an out-of-range index aborts (modelled by `panicIndex`). -/
def BytePacketBuffer.set (s : BytePacketBuffer) (p v : Nat) :
    Except BufErr BytePacketBuffer :=
  if p < 512 then .ok { s with buf := updFn s.buf p (v % 256) }
  else .error .panicIndex

/-- `set_u16`: patch two bytes, big-endian, at positions `p` and `p+1`. -/
def BytePacketBuffer.set_u16 (s : BytePacketBuffer) (p v : Nat) :
    Except BufErr BytePacketBuffer :=
  match s.set p (v / 256) with
  | .error e => .error e
  | .ok s1 => s1.set (p + 1) v

/-- `QueryType` from record.rs: only the catch-all `UNKNOWN` (carrying the
raw code) and `A` exist in the source. -/
inductive QueryType where
  | UNKNOWN : Nat → QueryType
  | A : QueryType
deriving DecidableEq

/-- `QueryType::to_num`. -/
def QueryType.to_num : QueryType → Nat
  | .UNKNOWN x => x
  | .A => 1

/-- `QueryType::from_num`: 1 maps to `A`, everything else to `UNKNOWN`
carrying the code. -/
def QueryType.from_num (num : Nat) : QueryType :=
  if num = 1 then .A else .UNKNOWN num

/-- `Ipv4Addr` as its four octets. -/
structure Ipv4Addr where
  o1 : Nat
  o2 : Nat
  o3 : Nat
  o4 : Nat
deriving DecidableEq

/-- `DnsRecord` from record.rs: `UNKNOWN` and `A`. The `NS` variant is
matched by `DnsPacket::get_ns` in packets.rs but its declaration is not in
the record.rs provided; it is Modelled from the spec: a name-server record
carries the delegated zone name, the host name of the authoritative server,
and a time to live. -/
inductive DnsRecord where
  | UNKNOWN : (domain : List Nat) → (qtype : Nat) → (data_len : Nat) →
      (ttl : Nat) → DnsRecord
  | A : (domain : List Nat) → (addr : Ipv4Addr) → (ttl : Nat) → DnsRecord
  | NS : (domain : List Nat) → (host : List Nat) → (ttl : Nat) → DnsRecord
deriving DecidableEq

/-- `DnsRecord::read`: owner name, type code, class (discarded), ttl,
data length; then dispatch on the type — `A` reads a 4-byte address,
`UNKNOWN` steps the cursor past `data_len` payload bytes. -/
def DnsRecord.read (s : BytePacketBuffer) :
    Except BufErr (DnsRecord × BytePacketBuffer) :=
  match s.read_qname with
  | .error e => .error e
  | .ok (domain, s1) =>
    match s1.read_u16 with
    | .error e => .error e
    | .ok (qtype_num, s2) =>
      match s2.read_u16 with
      | .error e => .error e
      | .ok (_, s3) =>
        match s3.read_u32 with
        | .error e => .error e
        | .ok (ttl, s4) =>
          match s4.read_u16 with
          | .error e => .error e
          | .ok (data_len, s5) =>
            match QueryType.from_num qtype_num with
            | .A =>
              match s5.read_u32 with
              | .error e => .error e
              | .ok (raw, s6) =>
                .ok (.A domain
                  ⟨raw / 16777216 % 256, raw / 65536 % 256,
                   raw / 256 % 256, raw % 256⟩ ttl, s6)
            | .UNKNOWN _ =>
              match s5.step data_len with
              | .error e => .error e
              | .ok s6 => .ok (.UNKNOWN domain qtype_num data_len ttl, s6)

/-- `DnsQuestion` from record.rs. -/
structure DnsQuestion where
  name : List Nat
  qtype : QueryType
deriving DecidableEq

/-- `DnsQuestion::read`: name, type code through the open enumeration, class
read and discarded. In `from_buffer` the question starts with an empty name,
so the appending `read_qname` yields exactly the decoded name. -/
def DnsQuestion.read (s : BytePacketBuffer) :
    Except BufErr (DnsQuestion × BytePacketBuffer) :=
  match s.read_qname with
  | .error e => .error e
  | .ok (name, s1) =>
    match s1.read_u16 with
    | .error e => .error e
    | .ok (qtype_num, s2) =>
      match s2.read_u16 with
      | .error e => .error e
      | .ok (_, s3) => .ok (⟨name, QueryType.from_num qtype_num⟩, s3)

/-- Modelled from the spec: `ResultCode` lives in the header.rs file, which
is not among the provided sources; the spec lists no-error, format-error,
server-failure, name-error, not-implemented, refused, and an unrecognized
numeric code preserved verbatim. -/
inductive ResultCode where
  | NOERROR : ResultCode
  | FORMERR : ResultCode
  | SERVFAIL : ResultCode
  | NXDOMAIN : ResultCode
  | NOTIMP : ResultCode
  | REFUSED : ResultCode
  | UNKNOWN : Nat → ResultCode
deriving DecidableEq

/-- Modelled from the spec: numeric value of a result code. -/
def ResultCode.to_num : ResultCode → Nat
  | .NOERROR => 0
  | .FORMERR => 1
  | .SERVFAIL => 2
  | .NXDOMAIN => 3
  | .NOTIMP => 4
  | .REFUSED => 5
  | .UNKNOWN x => x

/-- Modelled from the spec: result code of a numeric value, unrecognized
codes preserved verbatim. -/
def ResultCode.from_num (n : Nat) : ResultCode :=
  if n = 0 then .NOERROR
  else if n = 1 then .FORMERR
  else if n = 2 then .SERVFAIL
  else if n = 3 then .NXDOMAIN
  else if n = 4 then .NOTIMP
  else if n = 5 then .REFUSED
  else .UNKNOWN n

/-- Modelled from the spec: `DnsHeader` of header.rs (the file is not among
the provided sources). Fields are the transaction id, the flag bits of the
two flag bytes (high byte: response, 4-bit opcode, authoritative answer,
truncation, recursion desired; low byte: recursion available, one reserved
bit, 4-bit result code), and the four section counts. -/
structure DnsHeader where
  id : Nat
  recursion_desired : Bool
  truncated_message : Bool
  authoritative_answer : Bool
  opcode : Nat
  response : Bool
  rescode : ResultCode
  z : Bool
  recursion_available : Bool
  questions : Nat
  answers : Nat
  authoritative_entries : Nat
  resource_entries : Nat
deriving DecidableEq

/-- Modelled from the spec: `DnsHeader::new()` — all zero. -/
def DnsHeader.new : DnsHeader :=
  { id := 0, recursion_desired := false, truncated_message := false,
    authoritative_answer := false, opcode := 0, response := false,
    rescode := .NOERROR, z := false, recursion_available := false,
    questions := 0, answers := 0, authoritative_entries := 0,
    resource_entries := 0 }

/-- High flags byte of a header, per the spec bit layout. -/
def DnsHeader.flagsA (h : DnsHeader) : Nat :=
  h.response.toNat * 128 + h.opcode % 16 * 8 + h.authoritative_answer.toNat * 4
    + h.truncated_message.toNat * 2 + h.recursion_desired.toNat

/-- Low flags byte of a header, per the spec bit layout (the reserved bit is
placed just below the recursion-available bit; the result code occupies the
low four bits). -/
def DnsHeader.flagsB (h : DnsHeader) : Nat :=
  h.recursion_available.toNat * 128 + h.z.toNat * 64 + h.rescode.to_num % 16

/-- Modelled from the spec: `DnsHeader::read` — id, 16-bit flags word
decomposed per the bit layout, then the four counts. -/
def DnsHeader.read (s : BytePacketBuffer) :
    Except BufErr (DnsHeader × BytePacketBuffer) :=
  match s.read_u16 with
  | .error e => .error e
  | .ok (id, s1) =>
    match s1.read_u16 with
    | .error e => .error e
    | .ok (flags, s2) =>
      let a := flags / 256
      let b := flags % 256
      match s2.read_u16 with
      | .error e => .error e
      | .ok (qd, s3) =>
        match s3.read_u16 with
        | .error e => .error e
        | .ok (an, s4) =>
          match s4.read_u16 with
          | .error e => .error e
          | .ok (ns, s5) =>
            match s5.read_u16 with
            | .error e => .error e
            | .ok (ar, s6) =>
              .ok ({ id := id,
                     recursion_desired := a % 2 = 1,
                     truncated_message := a / 2 % 2 = 1,
                     authoritative_answer := a / 4 % 2 = 1,
                     opcode := a / 8 % 16,
                     response := a / 128 % 2 = 1,
                     rescode := ResultCode.from_num (b % 16),
                     z := b / 64 % 2 = 1,
                     recursion_available := b / 128 % 2 = 1,
                     questions := qd, answers := an,
                     authoritative_entries := ns,
                     resource_entries := ar }, s6)

/-- Modelled from the spec: `DnsHeader::write` — the exact inverse of the
decode direction. -/
def DnsHeader.write (h : DnsHeader) (s : BytePacketBuffer) :
    Except BufErr BytePacketBuffer :=
  match s.write_u16 h.id with
  | .error e => .error e
  | .ok s1 =>
    match s1.write_u8 h.flagsA with
    | .error e => .error e
    | .ok s2 =>
      match s2.write_u8 h.flagsB with
      | .error e => .error e
      | .ok s3 =>
        match s3.write_u16 h.questions with
        | .error e => .error e
        | .ok s4 =>
          match s4.write_u16 h.answers with
          | .error e => .error e
          | .ok s5 =>
            match s5.write_u16 h.authoritative_entries with
            | .error e => .error e
            | .ok s6 => s6.write_u16 h.resource_entries

/-- Modelled from the spec: `DnsQuestion::write` — name, type code,
class 1. -/
def DnsQuestion.write (q : DnsQuestion) (s : BytePacketBuffer) :
    Except BufErr BytePacketBuffer :=
  match s.write_qname q.name with
  | .error e => .error e
  | .ok s1 =>
    match s1.write_u16 q.qtype.to_num with
    | .error e => .error e
    | .ok s2 => s2.write_u16 1

/-- Modelled from the spec: `DnsRecord::write` — owner name, type code,
class 1, ttl, then a placeholder data length patched via `set_u16` once the
payload has been written; an address record writes its four octets, a
name-server record writes the host as a qname, an unknown record is skipped
(its payload was never retained). -/
def DnsRecord.write (r : DnsRecord) (s : BytePacketBuffer) :
    Except BufErr BytePacketBuffer :=
  match r with
  | .UNKNOWN _ _ _ _ => .ok s
  | .A domain addr ttl =>
    match s.write_qname domain with
    | .error e => .error e
    | .ok s1 =>
      match s1.write_u16 (QueryType.A.to_num) with
      | .error e => .error e
      | .ok s2 =>
        match s2.write_u16 1 with
        | .error e => .error e
        | .ok s3 =>
          match s3.write_u32 ttl with
          | .error e => .error e
          | .ok s4 =>
            let size_pos := s4.pos
            match s4.write_u16 0 with
            | .error e => .error e
            | .ok s5 =>
              match s5.write_u8 addr.o1 with
              | .error e => .error e
              | .ok s6 =>
                match s6.write_u8 addr.o2 with
                | .error e => .error e
                | .ok s7 =>
                  match s7.write_u8 addr.o3 with
                  | .error e => .error e
                  | .ok s8 =>
                    match s8.write_u8 addr.o4 with
                    | .error e => .error e
                    | .ok s9 => s9.set_u16 size_pos (s9.pos - (size_pos + 2))
  | .NS domain host ttl =>
    match s.write_qname domain with
    | .error e => .error e
    | .ok s1 =>
      match s1.write_u16 2 with
      | .error e => .error e
      | .ok s2 =>
        match s2.write_u16 1 with
        | .error e => .error e
        | .ok s3 =>
          match s3.write_u32 ttl with
          | .error e => .error e
          | .ok s4 =>
            let size_pos := s4.pos
            match s4.write_u16 0 with
            | .error e => .error e
            | .ok s5 =>
              match s5.write_qname host with
              | .error e => .error e
              | .ok s6 => s6.set_u16 size_pos (s6.pos - (size_pos + 2))

/-- `DnsPacket` from packets.rs. -/
structure DnsPacket where
  header : DnsHeader
  questions : List DnsQuestion
  answers : List DnsRecord
  authorities : List DnsRecord
  resources : List DnsRecord
deriving DecidableEq

/-- `DnsPacket::new()`. -/
def DnsPacket.new : DnsPacket :=
  { header := DnsHeader.new, questions := [], answers := [],
    authorities := [], resources := [] }

/-- Read `n` items with a given reader, in order (the counted for-loops of
`from_buffer`). -/
def readN {α : Type} (rd : BytePacketBuffer → Except BufErr (α × BytePacketBuffer)) :
    Nat → BytePacketBuffer → Except BufErr (List α × BytePacketBuffer)
  | 0, s => .ok ([], s)
  | n + 1, s =>
    match rd s with
    | .error e => .error e
    | .ok (x, s1) =>
      match readN rd n s1 with
      | .error e => .error e
      | .ok (xs, s2) => .ok (x :: xs, s2)

/-- `DnsPacket::from_buffer`: header, then exactly the counted numbers of
questions, answers, authorities and additional records. -/
def DnsPacket.from_buffer (s : BytePacketBuffer) :
    Except BufErr (DnsPacket × BytePacketBuffer) :=
  match DnsHeader.read s with
  | .error e => .error e
  | .ok (h, s1) =>
    match readN DnsQuestion.read h.questions s1 with
    | .error e => .error e
    | .ok (qs, s2) =>
      match readN DnsRecord.read h.answers s2 with
      | .error e => .error e
      | .ok (ans, s3) =>
        match readN DnsRecord.read h.authoritative_entries s3 with
        | .error e => .error e
        | .ok (auth, s4) =>
          match readN DnsRecord.read h.resource_entries s4 with
          | .error e => .error e
          | .ok (res, s5) =>
            .ok ({ header := h, questions := qs, answers := ans,
                   authorities := auth, resources := res }, s5)

/-- Write a list of items with a given writer, in order. -/
def writeList {α : Type} (wr : α → BytePacketBuffer → Except BufErr BytePacketBuffer) :
    List α → BytePacketBuffer → Except BufErr BytePacketBuffer
  | [], s => .ok s
  | x :: xs, s =>
    match wr x s with
    | .error e => .error e
    | .ok s1 => writeList wr xs s1

/-- The header of a packet with the four counts recomputed from the actual
sequence lengths, as the first lines of `DnsPacket::write` do. -/
def DnsPacket.recountHeader (p : DnsPacket) : DnsHeader :=
  { p.header with
    questions := p.questions.length % 65536,
    answers := p.answers.length % 65536,
    authoritative_entries := p.authorities.length % 65536,
    resource_entries := p.resources.length % 65536 }

/-- The packet with its header counts recomputed, which is the value
`DnsPacket::write` leaves behind in `self`. -/
def DnsPacket.recount (p : DnsPacket) : DnsPacket :=
  { p with header := p.recountHeader }

/-- `DnsPacket::write`: recompute the counts (the `as u16` casts are the
`% 65536`), then header, questions, answers, authorities, additional. -/
def DnsPacket.write (p : DnsPacket) (s : BytePacketBuffer) :
    Except BufErr BytePacketBuffer :=
  match p.recountHeader.write s with
  | .error e => .error e
  | .ok s1 =>
    match writeList DnsQuestion.write p.questions s1 with
    | .error e => .error e
    | .ok s2 =>
      match writeList DnsRecord.write p.answers s2 with
      | .error e => .error e
      | .ok s3 =>
        match writeList DnsRecord.write p.authorities s3 with
        | .error e => .error e
        | .ok s4 => writeList DnsRecord.write p.resources s4

/-- `DnsPacket::get_random_a`: first address among the answer records. -/
def DnsPacket.get_random_a (p : DnsPacket) : Option Ipv4Addr :=
  (p.answers.filterMap fun r =>
    match r with
    | .A _ addr _ => some addr
    | _ => none).head?

/-- `DnsPacket::get_ns`: the (domain, host) pairs of the name-server records
of the authority section whose domain is accepted by
`qname.ends_with(domain)` — a plain byte-suffix test. -/
def DnsPacket.get_ns (p : DnsPacket) (qname : List Nat) :
    List (List Nat × List Nat) :=
  (p.authorities.filterMap fun r =>
    match r with
    | .NS domain host _ => some (domain, host)
    | _ => none).filter fun pr => pr.1.isSuffixOf qname

/-- `DnsPacket::get_resolved_ns`: first address of an additional-section
address record whose owner equals the host of an accepted name-server
record. -/
def DnsPacket.get_resolved_ns (p : DnsPacket) (qname : List Nat) :
    Option Ipv4Addr :=
  ((p.get_ns qname).flatMap fun pr =>
    p.resources.filterMap fun r =>
      match r with
      | .A domain addr _ => if domain = pr.2 then some addr else none
      | _ => none).head?

/-- `DnsPacket::get_unresolved_ns`: host of the first accepted name-server
record. -/
def DnsPacket.get_unresolved_ns (p : DnsPacket) (qname : List Nat) :
    Option (List Nat) :=
  ((p.get_ns qname).map fun pr => pr.2).head?

/-- Resolution errors seen by the server driver: a transport or decode
failure of one `lookup` round trip (opaque to the driver), or exhaustion of
the fuel that the embedding threads through the (in the source, potentially
unbounded) delegation loop. -/
inductive LkErr where
  | lookupFailed : LkErr
  | fuelOut : LkErr
deriving DecidableEq

/-- Address of the a.root-servers.net root hint used by `recursive_lookup`. -/
def rootHint : Ipv4Addr := ⟨198, 41, 0, 4⟩

/-- The `lookup` function of server.rs is one send/receive round trip over
UDP; the transport is external, so it is embedded as an oracle mapping a
(qname, qtype, server) query to the decoded reply or a failure. -/
def LookupOracle : Type :=
  List Nat → QueryType → Ipv4Addr → Except LkErr DnsPacket

/-- `recursive_lookup` of server.rs with its delegation loop and its
recursive self-call, threaded through an explicit fuel parameter (the source
has no hop bound of its own; fuel exhaustion models nontermination). Each
loop iteration: query the current name server; a nonempty answer section
with result code no-error is terminal, a name-error reply is terminal, a
glued next-hop address continues the loop, an unglued next-hop host is
resolved by a recursive call from the root hint, and when no delegation
matches the reply is returned as-is. -/
def recursiveLookupAux (oracle : LookupOracle) :
    Nat → List Nat → QueryType → Ipv4Addr → Except LkErr DnsPacket
  | 0, _, _, _ => .error .fuelOut
  | fuel + 1, qname, qtype, ns =>
    match oracle qname qtype ns with
    | .error e => .error e
    | .ok response =>
      if response.answers ≠ [] ∧ response.header.rescode = .NOERROR then
        .ok response
      else if response.header.rescode = .NXDOMAIN then
        .ok response
      else
        match response.get_resolved_ns qname with
        | some new_ns => recursiveLookupAux oracle fuel qname qtype new_ns
        | none =>
          match response.get_unresolved_ns qname with
          | none => .ok response
          | some new_ns_name =>
            match recursiveLookupAux oracle fuel new_ns_name .A rootHint with
            | .error e => .error e
            | .ok recursive_response =>
              match recursive_response.get_random_a with
              | some new_ns => recursiveLookupAux oracle fuel qname qtype new_ns
              | none => .ok response

/-- `recursive_lookup(qname, qtype)`: start the delegation walk at the root
hint. -/
def recursive_lookup (oracle : LookupOracle) (fuel : Nat) (qname : List Nat)
    (qtype : QueryType) : Except LkErr DnsPacket :=
  recursiveLookupAux oracle fuel qname qtype rootHint

/-- `handle_query` of server.rs, between the transport boundaries: given the
already-decoded request and the resolver (embedded as a function so that the
way the source consults it — `recursive_lookup(&question.name,
question.qtype)` guarded by `if let Ok` — is explicit), build the response
packet. `Vec::pop` takes the last question. -/
def handle_query (resolver : List Nat → QueryType → Except LkErr DnsPacket)
    (request : DnsPacket) : DnsPacket :=
  let base : DnsPacket :=
    { DnsPacket.new with
      header := { DnsHeader.new with
        id := request.header.id,
        recursion_desired := true,
        recursion_available := true,
        response := true } }
  match request.questions.getLast? with
  | some question =>
    match resolver question.name question.qtype with
    | .ok result =>
      { base with
        questions := [question],
        header := { base.header with rescode := result.header.rescode },
        answers := result.answers,
        authorities := result.authorities,
        resources := result.resources }
    | .error _ =>
      { base with header := { base.header with rescode := .SERVFAIL } }
  | none =>
    { base with header := { base.header with rescode := .FORMERR } }

/-! ## Helper lemmas -/

/-- The error of a failed `get` is one of the two bounds outcomes, never the
fuel artifact. -/
theorem get_error_cases {s : BytePacketBuffer} {p : Nat} {e : BufErr}
    (h : s.get p = .error e) : e = .endOfBuffer ∨ e = .panicIndex := by
  unfold BytePacketBuffer.get at h
  by_cases h1 : 512 ≤ s.pos
  · simp [h1] at h; exact Or.inl h.symm
  · by_cases h2 : p < 512
    · simp [h1, h2] at h
    · simp [h1, h2] at h; exact Or.inr h.symm

/-- The error of a failed `get_range` is the bounds outcome. -/
theorem get_range_error_cases {s : BytePacketBuffer} {a b : Nat} {e : BufErr}
    (h : s.get_range a b = .error e) : e = .endOfBuffer := by
  unfold BytePacketBuffer.get_range at h
  by_cases h1 : 512 ≤ a + b
  · simp [h1] at h; exact h.symm
  · simp [h1] at h

/-- Fuel sufficiency for the `read_qname` loop: the loop performs at most six
jump iterations and, between jumps, strictly advances the local position
inside the 512-byte window, so the measure
`(6 - jumps) * 513 + (512 - p)` strictly bounds the fuel it consumes. -/
theorem readQnameAux_ne_fuelOut :
    ∀ (fuel : Nat) (s : BytePacketBuffer) (p : Nat) (jumped : Bool)
      (jumps : Nat) (acc delim : List Nat),
      (6 - jumps) * 513 + (512 - p) < fuel →
      readQnameAux s fuel p jumped jumps acc delim ≠ .error .fuelOut := by
  intro fuel
  induction fuel with
  | zero => intro s p jumped jumps acc delim h; omega
  | succ n ih =>
    intro s p jumped jumps acc delim h
    rw [readQnameAux]
    by_cases hj : 5 < jumps
    · simp [hj]
    · simp only [hj, if_false]
      rcases hg : BytePacketBuffer.get s p with e | len
      · rcases get_error_cases hg with he | he <;> simp [he]
      · have hp : p < 512 := by
          unfold BytePacketBuffer.get at hg
          by_cases h1 : 512 ≤ s.pos
          · simp [h1] at hg
          · by_cases h2 : p < 512
            · exact h2
            · simp [h1, h2] at hg
        simp only
        by_cases hptr : 192 ≤ len
        · simp only [hptr, if_true]
          rcases hg2 : BytePacketBuffer.get
              (if !jumped then { s with pos := p + 2 } else s) (p + 1) with e | b2
          · rcases get_error_cases hg2 with he | he <;> simp [he]
          · simp only
            exact ih _ _ _ _ _ _ (by omega)
        · simp only [hptr, if_false]
          by_cases hz : len = 0
          · simp [hz]
          · simp only [hz, if_false]
            rcases hr : BytePacketBuffer.get_range s (p + 1) len with e | bytes
            · simp [get_range_error_cases hr]
            · have hlt : p + 1 + len ≤ 511 := by
                unfold BytePacketBuffer.get_range at hr
                by_cases h1 : 512 ≤ p + 1 + len
                · simp [h1] at hr
                · omega
              simp only
              exact ih _ _ _ _ _ _ (by omega)

/-! ## Claim C1 -/

/-- C1 counterexample: with `start + len` equal to 512 (here 511 + 1), the
range is entirely inside the 512-byte capacity, yet `get_range` fails with
the buffer-bounds error, because the source tests `start + len >= 512`
rather than `start + len > 512`. The claim asserts this call succeeds. -/
theorem c1_get_range_512_fails :
    BytePacketBuffer.new.get_range 511 1 = .error .endOfBuffer := rfl

/-- C1 amended: `get_range(start, len)` returns the read-only byte view
`buf[start..start+len]` exactly when `start + len < 512`, and fails with the
buffer-bounds error exactly when `start + len ≥ 512`; in particular
`start + len = 512` fails (the bound is off by one against a strict
fits-in-512 check, as the design notes of the spec record). -/
theorem c1_get_range_bound (s : BytePacketBuffer) (start len : Nat) :
    (start + len < 512 →
      s.get_range start len =
        .ok ((List.range len).map fun i => s.buf (start + i))) ∧
    (512 ≤ start + len → s.get_range start len = .error .endOfBuffer) := by
  constructor <;> intro h <;> unfold BytePacketBuffer.get_range
  · rw [if_neg (by omega)]
  · rw [if_pos h]

/-- C1 witness: both sides of the amended dichotomy at concrete inputs. -/
theorem c1_get_range_bound_witness :
    BytePacketBuffer.new.get_range 1 2 = .ok [0, 0] ∧
    BytePacketBuffer.new.get_range 510 3 = .error .endOfBuffer := by
  refine ⟨((c1_get_range_bound BytePacketBuffer.new 1 2).1 (by omega)).trans rfl, ?_⟩
  exact (c1_get_range_bound BytePacketBuffer.new 510 3).2 (by omega)

/-! ## Claim C2 -/

/-- C2: decoding a domain name always terminates. First conjunct: for every
buffer state (arbitrary contents and cursor — adversarial input included)
the loop of `read_qname` finishes within the fixed fuel, i.e. the fuel
artifact of the embedding is unreachable, which is the shallow form of
termination. Second conjunct: whenever the jump counter exceeds the cap of
5, the loop fails with the jump-limit (malformed-name) error at the top of
the iteration. Third conjunct: a concrete pointer chain that loops on
itself (a pointer at offset 0 pointing back to offset 0) fails with the
jump-limit error. -/
theorem c2_read_qname_terminates :
    (∀ s : BytePacketBuffer, s.read_qname ≠ .error .fuelOut) ∧
    (∀ (s : BytePacketBuffer) (fuel p : Nat) (jumped : Bool) (jumps : Nat)
       (acc delim : List Nat), 5 < jumps →
       readQnameAux s (fuel + 1) p jumped jumps acc delim =
         .error .jumpLimit) ∧
    BytePacketBuffer.read_qname
        { buf := fun i => if i = 0 then 192 else 0, pos := 0 } =
      .error .jumpLimit := by
  refine ⟨fun s => ?_, fun s fuel p jumped jumps acc delim hj => ?_, rfl⟩
  · exact readQnameAux_ne_fuelOut 4200 s s.pos false 0 [] [] (by omega)
  · rw [readQnameAux, if_pos hj]

/-- C2 witness: the jump-cap conjunct applied at a concrete state with the
counter just past the cap, and the loop conjunct at a concrete buffer. -/
theorem c2_read_qname_terminates_witness :
    BytePacketBuffer.new.read_qname ≠ .error .fuelOut ∧
    readQnameAux BytePacketBuffer.new 1 0 false 6 [] [] =
      .error .jumpLimit :=
  ⟨c2_read_qname_terminates.1 BytePacketBuffer.new,
   c2_read_qname_terminates.2.1 BytePacketBuffer.new 0 0 false 6 [] []
     (by omega)⟩

/-! ## Claim C3 -/

/-- C3 counterexample: `step` succeeds while pushing the cursor to 600,
past 512, so the claimed invariant that every operation keeps the position
at most 512 is violated by the code. -/
theorem c3_step_breaks_bound :
    BytePacketBuffer.new.step 600 = .ok { BytePacketBuffer.new with pos := 600 } ∧
    512 < 600 :=
  ⟨rfl, by omega⟩

/-- C3 amended: only the advancing single-byte `read` and `write` enforce
the 512-byte bound — they fail with the buffer-bounds error at positions at
or past 512 and, from a position within bounds, advance it by one so it
never passes 512. `step` and `seek` reposition without any check and can
place the cursor past 512. `set` (and therefore `set_u16`) performs no
bounds check of its own: a position at or past 512 aborts with an index
panic rather than failing with the buffer-bounds error. `get` decides its
guard on the shared cursor rather than on the requested position. -/
theorem c3_bounds_behavior :
    (∀ s : BytePacketBuffer, 512 ≤ s.pos →
      s.read = .error .endOfBuffer ∧ ∀ v, s.write v = .error .endOfBuffer) ∧
    (∀ s : BytePacketBuffer, s.pos < 512 →
      (s.read = .ok (s.buf s.pos, { s with pos := s.pos + 1 }) ∧
        s.pos + 1 ≤ 512) ∧
      ∀ v, s.write v =
        .ok { buf := updFn s.buf s.pos (v % 256), pos := s.pos + 1 }) ∧
    (∀ (s : BytePacketBuffer) (n : Nat),
      s.step n = .ok { s with pos := s.pos + n }) ∧
    (∀ (s : BytePacketBuffer) (p : Nat),
      s.seek p = .ok { s with pos := p }) ∧
    (∀ (s : BytePacketBuffer) (p v : Nat), 512 ≤ p →
      s.set p v = .error .panicIndex ∧
      s.set_u16 p v = .error .panicIndex) ∧
    (∀ (s : BytePacketBuffer) (v : Nat),
      s.set_u16 511 v = .error .panicIndex) ∧
    (∀ (s : BytePacketBuffer) (p : Nat), 512 ≤ s.pos →
      s.get p = .error .endOfBuffer) := by
  refine ⟨fun s h => ⟨?_, fun v => ?_⟩, fun s h => ⟨⟨?_, by omega⟩, fun v => ?_⟩,
    fun s n => rfl, fun s p => rfl, fun s p v h => ⟨?_, ?_⟩, fun s v => ?_, fun s p h => ?_⟩
  · unfold BytePacketBuffer.read; rw [if_pos h]
  · unfold BytePacketBuffer.write; rw [if_pos h]
  · unfold BytePacketBuffer.read; rw [if_neg (by omega)]
  · unfold BytePacketBuffer.write; rw [if_neg (by omega)]
  · unfold BytePacketBuffer.set; rw [if_neg (by omega)]
  · unfold BytePacketBuffer.set_u16 BytePacketBuffer.set
    rw [if_neg (by omega)]
  · unfold BytePacketBuffer.set_u16 BytePacketBuffer.set
    rw [if_pos (by omega)]
    simp only
    rw [if_neg (by omega)]
  · unfold BytePacketBuffer.get; rw [if_pos h]

/-- C3 witness: the amended characterization applied at concrete states on
both sides of the bound. -/
theorem c3_bounds_behavior_witness :
    ({ BytePacketBuffer.new with pos := 512 } : BytePacketBuffer).read =
      .error .endOfBuffer ∧
    BytePacketBuffer.new.read = .ok (0, { BytePacketBuffer.new with pos := 1 }) ∧
    BytePacketBuffer.new.set 600 7 = .error .panicIndex ∧
    BytePacketBuffer.new.set_u16 511 7 = .error .panicIndex ∧
    ({ BytePacketBuffer.new with pos := 513 } : BytePacketBuffer).get 3 =
      .error .endOfBuffer :=
  ⟨(c3_bounds_behavior.1 _ (by decide)).1,
   ((c3_bounds_behavior.2.1 BytePacketBuffer.new (by decide)).1).1,
   (c3_bounds_behavior.2.2.2.2.1 _ 600 7 (by omega)).1,
   c3_bounds_behavior.2.2.2.2.2.1 BytePacketBuffer.new 7,
   c3_bounds_behavior.2.2.2.2.2.2 _ 3 (by decide)⟩

/-! ## Claim C4 -/

/-- C4 counterexample: the wire codes of the name-server (2),
canonical-name (5), mail-exchange (15) and IPv6-address (28) records are
all sent to the catch-all `UNKNOWN` variant — the source enumeration has no
named variant for them (its only named variant is `A`), contradicting the
claim that these codes map to distinct named variants. -/
theorem c4_named_variants_missing :
    QueryType.from_num 2 = QueryType.UNKNOWN 2 ∧
    QueryType.from_num 5 = QueryType.UNKNOWN 5 ∧
    QueryType.from_num 15 = QueryType.UNKNOWN 15 ∧
    QueryType.from_num 28 = QueryType.UNKNOWN 28 :=
  ⟨rfl, rfl, rfl, rfl⟩

/-- C4 amended: the query-type enumeration maps only the address-record code
1 to its named variant `A`; every other u16 code — including the
name-server, canonical-name, mail-exchange and IPv6-address codes — maps to
the catch-all `UNKNOWN` variant carrying that raw code, so decoding never
fails on an unrecognized type code, and `to_num` after `from_num` is the
identity on every code. -/
theorem c4_open_enumeration (n : Nat) :
    QueryType.to_num (QueryType.from_num n) = n ∧
    QueryType.from_num 1 = .A ∧
    (n ≠ 1 → QueryType.from_num n = .UNKNOWN n) := by
  refine ⟨?_, rfl, fun h => ?_⟩
  · unfold QueryType.from_num
    by_cases h : n = 1
    · simp [h, QueryType.to_num]
    · simp [h, QueryType.to_num]
  · unfold QueryType.from_num
    rw [if_neg h]

/-- C4 witness: the amended enumeration facts at the concrete code 28. -/
theorem c4_open_enumeration_witness :
    QueryType.to_num (QueryType.from_num 28) = 28 ∧
    QueryType.from_num 28 = .UNKNOWN 28 :=
  ⟨(c4_open_enumeration 28).1, (c4_open_enumeration 28).2.2 (by omega)⟩

/-! ## Claim C10 -/

/-- C10: the guard of the single-byte peek `get` tests the shared cursor
field, not the requested position. First conjunct: a requested position at
or past 512 with the shared cursor in bounds is not rejected by the guard —
the array access aborts with an index panic instead of the guarded
buffer-bounds failure. Second conjunct: an in-bounds requested position
fails whenever the shared cursor is at or past 512. Third conjunct:
`read_qname` on a buffer whose first label is the compression pointer
0xC2 0x00 (14-bit offset 512) is driven to read at position 512 while the
shared cursor sits at 2, so it aborts with the index panic, not with the
guarded buffer-bounds failure. -/
theorem c10_get_guard_on_shared_cursor :
    (∀ (s : BytePacketBuffer) (p : Nat), s.pos < 512 → 512 ≤ p →
      s.get p = .error .panicIndex) ∧
    (∀ (s : BytePacketBuffer) (p : Nat), 512 ≤ s.pos →
      s.get p = .error .endOfBuffer) ∧
    BytePacketBuffer.read_qname
        { buf := fun i => if i = 0 then 194 else 0, pos := 0 } =
      .error .panicIndex := by
  refine ⟨fun s p h1 h2 => ?_, fun s p h => ?_, rfl⟩
  · unfold BytePacketBuffer.get
    rw [if_neg (by omega), if_neg (by omega)]
  · unfold BytePacketBuffer.get
    rw [if_pos h]

/-- C10 witness: the two guard conjuncts applied at concrete states. -/
theorem c10_get_guard_witness :
    BytePacketBuffer.new.get 600 = .error .panicIndex ∧
    ({ BytePacketBuffer.new with pos := 512 } : BytePacketBuffer).get 3 =
      .error .endOfBuffer :=
  ⟨c10_get_guard_on_shared_cursor.1 BytePacketBuffer.new 600 (by decide) (by omega),
   c10_get_guard_on_shared_cursor.2.1 _ 3 (by decide)⟩

/-! ## Claim C5 -/

/-- C5 counterexample: a delegated zone whose bytes read ahoo.com is only a
trailing substring — not a whole-label suffix — of the query name
yahoo.com, yet `get_ns` yields the pair, because the source filter is the
plain `ends_with` byte-suffix test. The claim asserts such a zone does not
match. -/
theorem c5_get_ns_substring_match :
    (DnsPacket.mk DnsHeader.new [] []
        [DnsRecord.NS [97, 104, 111, 111, 46, 99, 111, 109]
          [110, 115, 49] 60] []).get_ns
        [121, 97, 104, 111, 111, 46, 99, 111, 109] =
      [([97, 104, 111, 111, 46, 99, 111, 109], [110, 115, 49])] := by
  decide

/-- C5 amended: `get_ns` yields exactly the (zone, host) pairs of
authority-section name-server records whose delegated-zone name is a plain
byte suffix of the query name (the `ends_with` test) — whole-label
alignment is not required, so a zone that is only a trailing substring of a
label, such as ahoo.com against yahoo.com, also matches. -/
theorem c5_get_ns_membership (p : DnsPacket) (qname zone host : List Nat) :
    (zone, host) ∈ p.get_ns qname ↔
      ((∃ ttl, DnsRecord.NS zone host ttl ∈ p.authorities) ∧
        zone.isSuffixOf qname = true) := by
  unfold DnsPacket.get_ns
  rw [List.mem_filter]
  simp only [List.mem_filterMap]
  constructor
  · rintro ⟨⟨r, hr, hpr⟩, hsuf⟩
    cases r with
    | UNKNOWN d q dl t => simp at hpr
    | A d a t => simp at hpr
    | NS d h t =>
      simp only [Option.some_inj] at hpr
      refine ⟨⟨t, ?_⟩, hsuf⟩
      have hd : d = zone := congrArg Prod.fst hpr
      have hh : h = host := congrArg Prod.snd hpr
      rw [hd, hh] at hr
      exact hr
  · rintro ⟨⟨ttl, hmem⟩, hsuf⟩
    exact ⟨⟨DnsRecord.NS zone host ttl, hmem, rfl⟩, hsuf⟩

/-! ## Claim C7 -/

/-- C7: when the decoded reply of the first query has a nonempty answer
section and result code no-error, or has result code name-error, the
resolver returns exactly that reply as a terminal non-failure result. The
theorem quantifies over every transport oracle that returns this reply for
the first query — in particular over oracles that fail every other query —
so the result provably depends on no further query. -/
theorem c7_recursive_lookup_terminal (oracle : LookupOracle) (fuel : Nat)
    (qname : List Nat) (qtype : QueryType) (resp : DnsPacket)
    (h : oracle qname qtype rootHint = .ok resp)
    (hterm : (resp.answers ≠ [] ∧ resp.header.rescode = .NOERROR) ∨
      resp.header.rescode = .NXDOMAIN) :
    recursive_lookup oracle (fuel + 1) qname qtype = .ok resp := by
  unfold recursive_lookup recursiveLookupAux
  rw [h]
  rcases hterm with ⟨ha, hc⟩ | hc
  · simp [ha, hc]
  · by_cases hfirst : resp.answers ≠ [] ∧ resp.header.rescode = .NOERROR
    · simp [hfirst]
    · simp [hfirst, hc]

/-- C7 witness: a name-error reply with an empty answer section is returned
as-is by a single-hop resolution. -/
theorem c7_recursive_lookup_terminal_witness :
    recursive_lookup
        (fun _ _ _ => .ok { DnsPacket.new with
          header := { DnsHeader.new with rescode := .NXDOMAIN } })
        1 [] .A =
      .ok { DnsPacket.new with
        header := { DnsHeader.new with rescode := .NXDOMAIN } } :=
  c7_recursive_lookup_terminal _ 0 [] .A _ rfl (Or.inr rfl)

/-! ## Claim C8 -/

/-- C8: in the per-request cycle, a failing recursive lookup is caught and
mapped to result code server-failure — `handle_query` is a total function
of the request and the resolver outcome, so the failure cannot propagate —
and a request with no questions yields format-error with the resolver never
invoked (the response is the same for every resolver). In both cases the
response echoes the request id and has the response flag set. -/
theorem c8_handle_query_failures :
    (∀ (resolver : List Nat → QueryType → Except LkErr DnsPacket)
       (request : DnsPacket) (q : DnsQuestion) (e : LkErr),
       request.questions.getLast? = some q →
       resolver q.name q.qtype = .error e →
       handle_query resolver request =
         { DnsPacket.new with
           header := { DnsHeader.new with
             id := request.header.id, recursion_desired := true,
             recursion_available := true, response := true,
             rescode := .SERVFAIL } }) ∧
    (∀ (r1 r2 : List Nat → QueryType → Except LkErr DnsPacket)
       (request : DnsPacket), request.questions = [] →
       handle_query r1 request = handle_query r2 request ∧
       handle_query r1 request =
         { DnsPacket.new with
           header := { DnsHeader.new with
             id := request.header.id, recursion_desired := true,
             recursion_available := true, response := true,
             rescode := .FORMERR } }) := by
  constructor
  · intro resolver request q e hq hres
    unfold handle_query
    rw [hq]
    simp only [hres]
  · intro r1 r2 request hempty
    unfold handle_query
    rw [hempty]
    exact ⟨rfl, rfl⟩

/-- C8 witness: a concrete failing resolver is mapped to server-failure, and
a concrete zero-question request to format-error under two resolvers that
disagree everywhere. -/
theorem c8_handle_query_failures_witness :
    handle_query (fun _ _ => .error .lookupFailed)
        { DnsPacket.new with questions := [⟨[], .A⟩] } =
      { DnsPacket.new with
        header := { DnsHeader.new with
          id := 0, recursion_desired := true, recursion_available := true,
          response := true, rescode := .SERVFAIL } } ∧
    handle_query (fun _ _ => .error .lookupFailed) DnsPacket.new =
      handle_query (fun _ _ => .ok DnsPacket.new) DnsPacket.new ∧
    handle_query (fun _ _ => .error .lookupFailed) DnsPacket.new =
      { DnsPacket.new with
        header := { DnsHeader.new with
          id := 0, recursion_desired := true, recursion_available := true,
          response := true, rescode := .FORMERR } } :=
  ⟨c8_handle_query_failures.1 _ _ ⟨[], .A⟩ .lookupFailed rfl rfl,
   (c8_handle_query_failures.2 (fun _ _ => .error .lookupFailed)
     (fun _ _ => .ok DnsPacket.new) DnsPacket.new rfl).1,
   (c8_handle_query_failures.2 (fun _ _ => .error .lookupFailed)
     (fun _ _ => .ok DnsPacket.new) DnsPacket.new rfl).2⟩

/-! ## Claim C9 -/

/-- C9: decoding a resource record whose type code is unrecognized (not the
address-record code 1) succeeds, and leaves the cursor exactly `data_len`
bytes past the position where the resource data begins (the position after
the length field), for every buffer — the payload bytes are never
inspected. Records that follow therefore decode from that position. -/
theorem c9_unknown_record_skip (s : BytePacketBuffer) (name : List Nat)
    (tn cls ttl dl : Nat) (s1 s2 s3 s4 s5 : BytePacketBuffer)
    (hq : s.read_qname = .ok (name, s1))
    (ht : s1.read_u16 = .ok (tn, s2))
    (htn : tn ≠ 1)
    (hc : s2.read_u16 = .ok (cls, s3))
    (httl : s3.read_u32 = .ok (ttl, s4))
    (hd : s4.read_u16 = .ok (dl, s5)) :
    DnsRecord.read s =
      .ok (.UNKNOWN name tn dl ttl, { s5 with pos := s5.pos + dl }) := by
  unfold DnsRecord.read
  simp only [hq, ht, hc, httl, hd]
  unfold QueryType.from_num
  rw [if_neg htn]
  rfl

/-- Buffer of the C9 witness: a root owner name, type code 99, class 1,
ttl 60, data length 5, payload left arbitrary (zeros). -/
def c9buf : BytePacketBuffer :=
  { buf := fun i =>
      if i = 2 then 99 else if i = 4 then 1 else
      if i = 8 then 60 else if i = 10 then 5 else 0,
    pos := 0 }

/-- C9 witness: the unknown-type record of `c9buf` decodes with the cursor
left at 16 = 11 + 5, exactly `data_len` past the start of the payload. -/
theorem c9_unknown_record_skip_witness :
    DnsRecord.read c9buf =
      .ok (.UNKNOWN [] 99 5 60, { c9buf with pos := 11 + 5 }) :=
  c9_unknown_record_skip c9buf [] 99 1 60 5
    { c9buf with pos := 1 } { c9buf with pos := 3 } { c9buf with pos := 5 }
    { c9buf with pos := 9 } { c9buf with pos := 11 }
    rfl rfl (by omega) rfl rfl rfl

/-! ## Round-trip infrastructure (claim C6)

The writers are characterized by the explicit byte lists they deposit in the
buffer, and the readers by the values they decode from a buffer that holds
those byte lists. -/

/-- Deposit a byte list at consecutive positions. -/
def placeBytes (f : Nat → Nat) : Nat → List Nat → (Nat → Nat)
  | _, [] => f
  | p, b :: bs => placeBytes (updFn f p b) (p + 1) bs

/-- The buffer function holds the byte list `bs` at positions `p`, `p+1`,
and so on. -/
def bufHas (f : Nat → Nat) : Nat → List Nat → Prop
  | _, [] => True
  | p, b :: bs => f p = b ∧ bufHas f (p + 1) bs

/-- The two wire bytes of a 16-bit value, big-endian, with the u8 casts. -/
def u16Bytes (v : Nat) : List Nat :=
  [v / 256 % 256, v % 256]

/-- The four wire bytes of a 32-bit value, big-endian, with the u8 casts. -/
def u32Bytes (v : Nat) : List Nat :=
  [v / 16777216 % 256, v / 65536 % 256, v / 256 % 256, v % 256]

/-- Wire bytes of one label: length byte then the label bytes (u8 casts). -/
def labelBytes (l : List Nat) : List Nat :=
  l.length % 256 :: l.map (· % 256)

/-- Wire bytes of an uncompressed qname: the labels of the dotted name, each
length-prefixed, then the zero terminator. -/
def qnameBytes (name : List Nat) : List Nat :=
  ((splitOnDot name).map labelBytes).flatten ++ [0]

/-- Wire bytes of a question: name, type code, class 1. -/
def questionBytes (q : DnsQuestion) : List Nat :=
  qnameBytes q.name ++ u16Bytes q.qtype.to_num ++ u16Bytes 1

/-- Wire bytes of a record as the writer deposits them; an address record is
name, type 1, class 1, ttl, length 4 (patched in after the payload), then
the four octets. Unknown records deposit nothing; a name-server record
carries its host as a qname. -/
def recordBytes : DnsRecord → List Nat
  | .UNKNOWN _ _ _ _ => []
  | .A d addr ttl =>
    qnameBytes d ++ u16Bytes 1 ++ u16Bytes 1 ++ u32Bytes ttl ++ u16Bytes 4 ++
      [addr.o1 % 256, addr.o2 % 256, addr.o3 % 256, addr.o4 % 256]
  | .NS d host ttl =>
    qnameBytes d ++ u16Bytes 2 ++ u16Bytes 1 ++ u32Bytes ttl ++
      u16Bytes (qnameBytes host).length ++ qnameBytes host

/-- Wire bytes of a header: id, the two flag bytes, the four counts. -/
def headerBytes (h : DnsHeader) : List Nat :=
  u16Bytes h.id ++ [h.flagsA % 256, h.flagsB % 256] ++ u16Bytes h.questions ++
    u16Bytes h.answers ++ u16Bytes h.authoritative_entries ++
    u16Bytes h.resource_entries

/-- Wire bytes of a whole packet, with the recomputed counts in the
header. -/
def packetBytes (p : DnsPacket) : List Nat :=
  headerBytes p.recountHeader ++
    (p.questions.map questionBytes).flatten ++
    (p.answers.map recordBytes).flatten ++
    (p.authorities.map recordBytes).flatten ++
    (p.resources.map recordBytes).flatten

/-- Indices below the deposit window are untouched. -/
theorem placeBytes_lt {bs : List Nat} :
    ∀ {f : Nat → Nat} {p i : Nat}, i < p → placeBytes f p bs i = f i := by
  induction bs with
  | nil => intro f p i h; rfl
  | cons b rest ih =>
    intro f p i h
    rw [placeBytes, ih (by omega)]
    unfold updFn
    rw [if_neg (by omega)]

/-- A deposit is faithfully readable. -/
theorem bufHas_placeBytes {bs : List Nat} :
    ∀ {f : Nat → Nat} {p : Nat}, bufHas (placeBytes f p bs) p bs := by
  induction bs with
  | nil => intro f p; trivial
  | cons b rest ih =>
    intro f p
    refine ⟨?_, ih⟩
    rw [placeBytes, placeBytes_lt (by omega)]
    unfold updFn
    rw [if_pos rfl]

/-- Splitting a stretch of held bytes. -/
theorem bufHas_append {f : Nat → Nat} {bs1 bs2 : List Nat} :
    ∀ {p : Nat}, bufHas f p (bs1 ++ bs2) ↔
      (bufHas f p bs1 ∧ bufHas f (p + bs1.length) bs2) := by
  induction bs1 with
  | nil =>
    intro p
    show bufHas f p bs2 ↔ (True ∧ bufHas f (p + 0) bs2)
    rw [Nat.add_zero]
    exact ⟨fun h => ⟨trivial, h⟩, fun h => h.2⟩
  | cons b rest ih =>
    intro p
    show (f p = b ∧ bufHas f (p + 1) (rest ++ bs2)) ↔ _
    rw [ih]
    constructor
    · rintro ⟨h1, h2, h3⟩
      refine ⟨⟨h1, h2⟩, ?_⟩
      have he : p + (b :: rest).length = p + 1 + rest.length := by
        rw [List.length_cons]; omega
      rw [he]
      exact h3
    · rintro ⟨⟨h1, h2⟩, h3⟩
      refine ⟨h1, h2, ?_⟩
      have he : p + (b :: rest).length = p + 1 + rest.length := by
        rw [List.length_cons]; omega
      rw [he] at h3
      exact h3

/-- Appending deposits. -/
theorem placeBytes_append {bs1 bs2 : List Nat} :
    ∀ {f : Nat → Nat} {p : Nat},
      placeBytes f p (bs1 ++ bs2) =
        placeBytes (placeBytes f p bs1) (p + bs1.length) bs2 := by
  induction bs1 with
  | nil => intro f p; rfl
  | cons b rest ih =>
    intro f p
    show placeBytes (updFn f p b) (p + 1) (rest ++ bs2) = _
    rw [ih]
    have he : p + (b :: rest).length = p + 1 + rest.length := by
      rw [List.length_cons]; omega
    rw [he]
    rfl

/-- Overwriting the same index keeps only the last value. -/
theorem updFn_same (f : Nat → Nat) (i a b : Nat) :
    updFn (updFn f i a) i b = updFn f i b := by
  funext j
  unfold updFn
  by_cases h : j = i <;> simp [h]

/-- Updates at different indices commute. -/
theorem updFn_comm (f : Nat → Nat) {i j : Nat} (a b : Nat) (h : i ≠ j) :
    updFn (updFn f i a) j b = updFn (updFn f j b) i a := by
  funext k
  unfold updFn
  by_cases h1 : k = j
  · rw [if_pos h1, if_neg (by omega), if_pos h1]
  · rw [if_neg h1]
    by_cases h2 : k = i
    · rw [if_pos h2, if_pos h2]
    · rw [if_neg h2, if_neg h2, if_neg h1]

/-- An update below the deposit window commutes out of the deposit. -/
theorem placeBytes_updFn_lt {bs : List Nat} :
    ∀ {f : Nat → Nat} {p i v : Nat}, i < p →
      placeBytes (updFn f i v) p bs = updFn (placeBytes f p bs) i v := by
  induction bs with
  | nil => intro f p i v h; rfl
  | cons b rest ih =>
    intro f p i v h
    show placeBytes (updFn (updFn f i v) p b) (p + 1) rest = _
    rw [updFn_comm _ _ _ (by omega), ih (by omega)]
    rfl

/-- Patching inside a deposited list replaces the listed byte. -/
theorem updFn_placeBytes {bs : List Nat} :
    ∀ {f : Nat → Nat} {p i v : Nat}, i < bs.length →
      updFn (placeBytes f p bs) (p + i) v = placeBytes f p (bs.set i v) := by
  induction bs with
  | nil => intro f p i v h; simp at h
  | cons b rest ih =>
    intro f p i v h
    match i with
    | 0 =>
      show updFn (placeBytes (updFn f p b) (p + 1) rest) (p + 0) v =
        placeBytes (updFn f p v) (p + 1) rest
      rw [show p + 0 = p from rfl, ← placeBytes_updFn_lt (by omega),
        updFn_same]
    | j + 1 =>
      show updFn (placeBytes (updFn f p b) (p + 1) rest) (p + (j + 1)) v =
        placeBytes (updFn f p b) (p + 1) (rest.set j v)
      rw [show p + (j + 1) = (p + 1) + j by omega]
      exact ih (by simp at h; omega)

/-- Patching at the start of a deposited list. -/
theorem updFn_placeBytes_zero {bs : List Nat} {f : Nat → Nat} {p v : Nat}
    (h : 0 < bs.length) :
    updFn (placeBytes f p bs) p v = placeBytes f p (bs.set 0 v) := by
  have hh := @updFn_placeBytes bs f p 0 v h
  rw [Nat.add_zero] at hh
  exact hh

/-- Patching inside the suffix of a deposited concatenation. -/
theorem updFn_placeBytes_append {xs ys : List Nat} {f : Nat → Nat}
    {p i v : Nat} (h : i < ys.length) :
    updFn (placeBytes f p (xs ++ ys)) (p + xs.length + i) v =
      placeBytes f p (xs ++ ys.set i v) := by
  rw [placeBytes_append, updFn_placeBytes h, ← placeBytes_append]

/-- Forward characterization of `write` from an in-bounds cursor. -/
theorem write_ok {f : Nat → Nat} {p v : Nat} (h : p < 512) :
    BytePacketBuffer.write ⟨f, p⟩ v =
      .ok ⟨updFn f p (v % 256), p + 1⟩ := by
  show (if 512 ≤ p then (Except.error BufErr.endOfBuffer) else
      Except.ok ({ buf := updFn f p (v % 256), pos := p + 1 } :
        BytePacketBuffer)) = _
  rw [if_neg (by omega)]

/-- Forward characterization of `write_u8`. -/
theorem write_u8_ok {f : Nat → Nat} {p v : Nat} (h : p < 512) :
    BytePacketBuffer.write_u8 ⟨f, p⟩ v =
      .ok ⟨updFn f p (v % 256), p + 1⟩ :=
  write_ok h

/-- Forward characterization of `write_u16`. -/
theorem write_u16_ok {f : Nat → Nat} {p v : Nat} (h : p + 2 ≤ 512) :
    BytePacketBuffer.write_u16 ⟨f, p⟩ v =
      .ok ⟨placeBytes f p (u16Bytes v), p + 2⟩ := by
  simp only [BytePacketBuffer.write_u16, write_ok (show p < 512 by omega),
    write_ok (show p + 1 < 512 by omega), placeBytes, u16Bytes]

/-- Forward characterization of `write_u32`. -/
theorem write_u32_ok {f : Nat → Nat} {p v : Nat} (h : p + 4 ≤ 512) :
    BytePacketBuffer.write_u32 ⟨f, p⟩ v =
      .ok ⟨placeBytes f p (u32Bytes v), p + 4⟩ := by
  simp only [BytePacketBuffer.write_u32, write_ok (show p < 512 by omega),
    write_ok (show p + 1 < 512 by omega),
    write_ok (show p + 2 < 512 by omega),
    write_ok (show p + 3 < 512 by omega), placeBytes, u32Bytes]

/-- Forward characterization of `set_u16`. -/
theorem set_u16_ok {f : Nat → Nat} {p q v : Nat} (h : q + 2 ≤ 512) :
    BytePacketBuffer.set_u16 ⟨f, p⟩ q v =
      .ok ⟨updFn (updFn f q (v / 256 % 256)) (q + 1) (v % 256), p⟩ := by
  simp only [BytePacketBuffer.set_u16, BytePacketBuffer.set,
    if_pos (show q < 512 by omega), if_pos (show q + 1 < 512 by omega)]

/-- Forward characterization of the label-byte loop of `write_qname`. -/
theorem writeLabelBytes_ok {l : List Nat} :
    ∀ {f : Nat → Nat} {p : Nat}, p + l.length ≤ 512 →
      writeLabelBytes ⟨f, p⟩ l =
        .ok ⟨placeBytes f p (l.map (· % 256)), p + l.length⟩ := by
  induction l with
  | nil => intro f p h; rfl
  | cons b bs ih =>
    intro f p h
    rw [List.length_cons] at h
    simp only [writeLabelBytes, BytePacketBuffer.write_u8,
      write_ok (show p < 512 by omega)]
    rw [ih (show p + 1 + bs.length ≤ 512 by omega)]
    rw [show p + (b :: bs).length = p + 1 + bs.length by
      rw [List.length_cons]; omega]
    rfl

/-- Forward characterization of the label loop of `write_qname` for labels
within the 63-byte bound. -/
theorem writeLabels_ok {ls : List (List Nat)} :
    ∀ {f : Nat → Nat} {p : Nat},
      (∀ l ∈ ls, l.length ≤ 63) →
      p + ((ls.map labelBytes).flatten).length ≤ 512 →
      writeLabels ⟨f, p⟩ ls =
        .ok ⟨placeBytes f p ((ls.map labelBytes).flatten),
          p + ((ls.map labelBytes).flatten).length⟩ := by
  induction ls with
  | nil => intro f p _ _; rfl
  | cons l rest ih =>
    intro f p hwf hfit
    have hl : l.length ≤ 63 := hwf l (List.mem_cons_self l rest)
    have hrest : ∀ x ∈ rest, x.length ≤ 63 :=
      fun x hx => hwf x (List.mem_cons_of_mem l hx)
    have hlen : (labelBytes l).length = l.length + 1 := by
      simp [labelBytes]
    have hflat : (((l :: rest).map labelBytes).flatten) =
        labelBytes l ++ ((rest.map labelBytes).flatten) := by
      simp
    have hfit2 : p + (l.length + 1 +
        ((rest.map labelBytes).flatten).length) ≤ 512 := by
      rw [hflat, List.length_append, hlen] at hfit; omega
    simp only [writeLabels, if_neg (show ¬ 63 < l.length by omega),
      BytePacketBuffer.write_u8, write_ok (show p < 512 by omega),
      writeLabelBytes_ok (show p + 1 + l.length ≤ 512 by omega),
      ih hrest (show p + 1 + l.length +
        ((rest.map labelBytes).flatten).length ≤ 512 by omega)]
    rw [hflat, placeBytes_append]
    have hp : p + (labelBytes l).length = p + 1 + l.length := by
      rw [hlen]; omega
    rw [hp, List.length_append, hlen]
    rw [show p + (l.length + 1 + ((rest.map labelBytes).flatten).length) =
      p + 1 + l.length + ((rest.map labelBytes).flatten).length by omega]
    rfl

/-- Forward characterization of `write_qname` for names whose labels are
within the 63-byte bound. -/
theorem write_qname_ok {f : Nat → Nat} {p : Nat} {name : List Nat}
    (hwf : ∀ l ∈ splitOnDot name, l.length ≤ 63)
    (hfit : p + (qnameBytes name).length ≤ 512) :
    BytePacketBuffer.write_qname ⟨f, p⟩ name =
      .ok ⟨placeBytes f p (qnameBytes name),
        p + (qnameBytes name).length⟩ := by
  have hq : qnameBytes name =
      (((splitOnDot name).map labelBytes).flatten) ++ [0] := rfl
  have hlen : (qnameBytes name).length =
      (((splitOnDot name).map labelBytes).flatten).length + 1 := by
    rw [hq, List.length_append]; rfl
  rw [hlen] at hfit
  simp only [BytePacketBuffer.write_qname,
    writeLabels_ok hwf (show p +
      (((splitOnDot name).map labelBytes).flatten).length ≤ 512 by omega),
    BytePacketBuffer.write_u8,
    write_ok (show p +
      (((splitOnDot name).map labelBytes).flatten).length < 512 by omega)]
  rw [hq, placeBytes_append]
  congr 1
  congr 1
  simp only [List.length_append, List.length_cons, List.length_nil]
  omega

/-- Forward characterization of the question writer. -/
theorem writeQuestion_ok {f : Nat → Nat} {p : Nat} {q : DnsQuestion}
    (hwf : ∀ l ∈ splitOnDot q.name, l.length ≤ 63)
    (hfit : p + (questionBytes q).length ≤ 512) :
    DnsQuestion.write q ⟨f, p⟩ =
      .ok ⟨placeBytes f p (questionBytes q),
        p + (questionBytes q).length⟩ := by
  have hlen : (questionBytes q).length = (qnameBytes q.name).length + 4 := by
    simp [questionBytes, u16Bytes]
  rw [hlen] at hfit ⊢
  simp only [DnsQuestion.write,
    write_qname_ok hwf (show p + (qnameBytes q.name).length ≤ 512 by omega),
    write_u16_ok (show p + (qnameBytes q.name).length + 2 ≤ 512 by omega),
    write_u16_ok
      (show p + (qnameBytes q.name).length + 2 + 2 ≤ 512 by omega)]
  rw [show questionBytes q = qnameBytes q.name ++
    (u16Bytes q.qtype.to_num ++ u16Bytes 1) by
      simp [questionBytes, List.append_assoc]]
  rw [placeBytes_append, placeBytes_append]
  rfl

/-- Forward characterization of the header writer. -/
theorem writeHeader_ok {f : Nat → Nat} {p : Nat} {h : DnsHeader}
    (hfit : p + 12 ≤ 512) :
    DnsHeader.write h ⟨f, p⟩ =
      .ok ⟨placeBytes f p (headerBytes h), p + 12⟩ := by
  simp only [DnsHeader.write,
    write_u16_ok (show p + 2 ≤ 512 by omega),
    BytePacketBuffer.write_u8,
    write_ok (show p + 2 < 512 by omega),
    write_ok (show p + 2 + 1 < 512 by omega),
    write_u16_ok (show p + 2 + 1 + 1 + 2 ≤ 512 by omega),
    write_u16_ok (show p + 2 + 1 + 1 + 2 + 2 ≤ 512 by omega),
    write_u16_ok (show p + 2 + 1 + 1 + 2 + 2 + 2 ≤ 512 by omega),
    write_u16_ok (show p + 2 + 1 + 1 + 2 + 2 + 2 + 2 ≤ 512 by omega)]
  rw [show headerBytes h = u16Bytes h.id ++
    ([h.flagsA % 256, h.flagsB % 256] ++ (u16Bytes h.questions ++
      (u16Bytes h.answers ++ (u16Bytes h.authoritative_entries ++
        u16Bytes h.resource_entries)))) by
      simp [headerBytes, List.append_assoc]]
  rw [placeBytes_append, placeBytes_append, placeBytes_append,
    placeBytes_append, placeBytes_append]
  rfl

/-- Forward characterization of the address-record writer, patch included:
the placeholder length written before the payload and then patched via
`set_u16` ends up as the byte pair of the value 4 inside the deposited
record bytes. -/
theorem writeRecordA_ok {f : Nat → Nat} {p : Nat} {d : List Nat}
    {addr : Ipv4Addr} {ttl : Nat}
    (hwf : ∀ l ∈ splitOnDot d, l.length ≤ 63)
    (hfit : p + (recordBytes (.A d addr ttl)).length ≤ 512) :
    DnsRecord.write (.A d addr ttl) ⟨f, p⟩ =
      .ok ⟨placeBytes f p (recordBytes (.A d addr ttl)),
        p + (recordBytes (.A d addr ttl)).length⟩ := by
  have hlen : (recordBytes (.A d addr ttl)).length =
      (qnameBytes d).length + 14 := by
    simp [recordBytes, u16Bytes, u32Bytes]
  rw [hlen] at hfit ⊢
  simp only [DnsRecord.write,
    write_qname_ok hwf (show p + (qnameBytes d).length ≤ 512 by omega),
    write_u16_ok (show p + (qnameBytes d).length + 2 ≤ 512 by omega),
    write_u16_ok (show p + (qnameBytes d).length + 2 + 2 ≤ 512 by omega),
    write_u32_ok
      (show p + (qnameBytes d).length + 2 + 2 + 4 ≤ 512 by omega),
    write_u16_ok
      (show p + (qnameBytes d).length + 2 + 2 + 4 + 2 ≤ 512 by omega),
    BytePacketBuffer.write_u8,
    write_ok
      (show p + (qnameBytes d).length + 2 + 2 + 4 + 2 < 512 by omega),
    write_ok
      (show p + (qnameBytes d).length + 2 + 2 + 4 + 2 + 1 < 512 by omega),
    write_ok
      (show p + (qnameBytes d).length + 2 + 2 + 4 + 2 + 1 + 1 < 512 by
        omega),
    write_ok
      (show p + (qnameBytes d).length + 2 + 2 + 4 + 2 + 1 + 1 + 1 < 512 by
        omega),
    set_u16_ok
      (show p + (qnameBytes d).length + 2 + 2 + 4 + 2 ≤ 512 by omega)]
  rw [show p + (qnameBytes d).length + 2 + 2 + 4 + 2 + 1 + 1 + 1 + 1 -
      (p + (qnameBytes d).length + 4 + 4 + 2) = 4 by omega]
  show Except.ok (⟨updFn (updFn (placeBytes (placeBytes (placeBytes
      (placeBytes (placeBytes f p (qnameBytes d))
        (p + (qnameBytes d).length) (u16Bytes 1))
      (p + (qnameBytes d).length + 2) (u16Bytes 1))
      (p + (qnameBytes d).length + 4) (u32Bytes ttl))
      (p + (qnameBytes d).length + 8)
      (0 :: 0 :: [addr.o1 % 256, addr.o2 % 256, addr.o3 % 256,
        addr.o4 % 256]))
      (p + (qnameBytes d).length + 8) 0)
      (p + (qnameBytes d).length + 8 + 1) 4,
      p + ((qnameBytes d).length + 14)⟩ : BytePacketBuffer) =
    Except.ok ⟨placeBytes f p (recordBytes (DnsRecord.A d addr ttl)),
      p + ((qnameBytes d).length + 14)⟩
  rw [updFn_placeBytes_zero (by simp)]
  rw [updFn_placeBytes (by simp)]
  rw [show recordBytes (DnsRecord.A d addr ttl) = qnameBytes d ++
    (u16Bytes 1 ++ (u16Bytes 1 ++ (u32Bytes ttl ++ (u16Bytes 4 ++
      [addr.o1 % 256, addr.o2 % 256, addr.o3 % 256, addr.o4 % 256])))) by
    simp [recordBytes, List.append_assoc]]
  rw [placeBytes_append, placeBytes_append, placeBytes_append,
    placeBytes_append]
  rfl

/-- Well-formedness of a record for the supported round-trip set: an
address record whose owner name has labels within the 63-byte bound. -/
def recWf (r : DnsRecord) : Prop :=
  ∃ d addr ttl, r = DnsRecord.A d addr ttl ∧
    ∀ l ∈ splitOnDot d, l.length ≤ 63

/-- Forward characterization of the question-list writer. -/
theorem writeList_questions_ok {qs : List DnsQuestion} :
    ∀ {f : Nat → Nat} {p : Nat},
      (∀ q ∈ qs, ∀ l ∈ splitOnDot q.name, l.length ≤ 63) →
      p + ((qs.map questionBytes).flatten).length ≤ 512 →
      writeList DnsQuestion.write qs ⟨f, p⟩ =
        .ok ⟨placeBytes f p ((qs.map questionBytes).flatten),
          p + ((qs.map questionBytes).flatten).length⟩ := by
  induction qs with
  | nil => intro f p _ _; rfl
  | cons q rest ih =>
    intro f p hwf hfit
    have hflat : (((q :: rest).map questionBytes).flatten) =
        questionBytes q ++ ((rest.map questionBytes).flatten) := by
      simp
    rw [hflat] at hfit ⊢
    rw [List.length_append] at hfit ⊢
    have hq := hwf q (List.mem_cons_self q rest)
    simp only [writeList,
      writeQuestion_ok hq (show p + (questionBytes q).length ≤ 512 by omega),
      ih (fun x hx => hwf x (List.mem_cons_of_mem q hx))
        (show p + (questionBytes q).length +
          ((rest.map questionBytes).flatten).length ≤ 512 by omega)]
    rw [placeBytes_append]
    congr 1
    congr 1
    omega

/-- Forward characterization of the record-list writer for supported
records. -/
theorem writeList_records_ok {rs : List DnsRecord} :
    ∀ {f : Nat → Nat} {p : Nat},
      (∀ r ∈ rs, recWf r) →
      p + ((rs.map recordBytes).flatten).length ≤ 512 →
      writeList DnsRecord.write rs ⟨f, p⟩ =
        .ok ⟨placeBytes f p ((rs.map recordBytes).flatten),
          p + ((rs.map recordBytes).flatten).length⟩ := by
  induction rs with
  | nil => intro f p _ _; rfl
  | cons r rest ih =>
    intro f p hwf hfit
    obtain ⟨d, addr, ttl, hr, hd⟩ := hwf r (List.mem_cons_self r rest)
    subst hr
    have hflat : (((DnsRecord.A d addr ttl :: rest).map recordBytes).flatten) =
        recordBytes (DnsRecord.A d addr ttl) ++
          ((rest.map recordBytes).flatten) := by
      simp
    rw [hflat] at hfit ⊢
    rw [List.length_append] at hfit ⊢
    simp only [writeList,
      writeRecordA_ok hd (show p +
        (recordBytes (DnsRecord.A d addr ttl)).length ≤ 512 by omega),
      ih (fun x hx => hwf x (List.mem_cons_of_mem _ hx))
        (show p + (recordBytes (DnsRecord.A d addr ttl)).length +
          ((rest.map recordBytes).flatten).length ≤ 512 by omega)]
    rw [placeBytes_append]
    congr 1
    congr 1
    omega

/-- The header always encodes to twelve bytes. -/
theorem headerBytes_length (h : DnsHeader) : (headerBytes h).length = 12 := by
  simp [headerBytes, u16Bytes]

/-- Forward characterization of the whole-packet writer for supported
packets. -/
theorem writePacket_ok {pk : DnsPacket} {f : Nat → Nat} {p : Nat}
    (hq : ∀ q ∈ pk.questions, ∀ l ∈ splitOnDot q.name, l.length ≤ 63)
    (hans : ∀ r ∈ pk.answers, recWf r)
    (hauth : ∀ r ∈ pk.authorities, recWf r)
    (hres : ∀ r ∈ pk.resources, recWf r)
    (hfit : p + (packetBytes pk).length ≤ 512) :
    DnsPacket.write pk ⟨f, p⟩ =
      .ok ⟨placeBytes f p (packetBytes pk),
        p + (packetBytes pk).length⟩ := by
  have hsplit : packetBytes pk = headerBytes pk.recountHeader ++
      (((pk.questions.map questionBytes).flatten) ++
        (((pk.answers.map recordBytes).flatten) ++
          (((pk.authorities.map recordBytes).flatten) ++
            ((pk.resources.map recordBytes).flatten)))) := by
    simp [packetBytes, List.append_assoc]
  have hlen : (packetBytes pk).length = 12 +
      (((pk.questions.map questionBytes).flatten).length +
        (((pk.answers.map recordBytes).flatten).length +
          (((pk.authorities.map recordBytes).flatten).length +
            ((pk.resources.map recordBytes).flatten).length))) := by
    rw [hsplit]
    simp [List.length_append, headerBytes_length]
  rw [hlen] at hfit ⊢
  simp only [DnsPacket.write,
    writeHeader_ok (show p + 12 ≤ 512 by omega),
    writeList_questions_ok hq (show p + 12 +
      ((pk.questions.map questionBytes).flatten).length ≤ 512 by omega),
    writeList_records_ok hans (show p + 12 +
      ((pk.questions.map questionBytes).flatten).length +
      ((pk.answers.map recordBytes).flatten).length ≤ 512 by omega),
    writeList_records_ok hauth (show p + 12 +
      ((pk.questions.map questionBytes).flatten).length +
      ((pk.answers.map recordBytes).flatten).length +
      ((pk.authorities.map recordBytes).flatten).length ≤ 512 by omega),
    writeList_records_ok hres (show p + 12 +
      ((pk.questions.map questionBytes).flatten).length +
      ((pk.answers.map recordBytes).flatten).length +
      ((pk.authorities.map recordBytes).flatten).length +
      ((pk.resources.map recordBytes).flatten).length ≤ 512 by omega)]
  rw [hsplit, placeBytes_append, placeBytes_append, placeBytes_append,
    placeBytes_append, headerBytes_length]
  congr 1
  congr 1
  omega

/-- Element extraction from a held byte stretch. -/
theorem bufHas_getElem {bs : List Nat} :
    ∀ {f : Nat → Nat} {p i : Nat} (hi : i < bs.length),
      bufHas f p bs → f (p + i) = bs[i] := by
  induction bs with
  | nil => intro f p i hi _; simp at hi
  | cons b rest ih =>
    intro f p i hi hb
    obtain ⟨h1, h2⟩ := hb
    match i with
    | 0 => simpa using h1
    | j + 1 =>
      rw [show p + (j + 1) = (p + 1) + j by omega]
      simpa using ih (by simpa using hi) h2

/-- The range view of a held byte stretch is the stretch itself. -/
theorem range_map_of_bufHas {bs : List Nat} {f : Nat → Nat} {p : Nat}
    (hb : bufHas f p bs) :
    (List.range bs.length).map (fun i => f (p + i)) = bs := by
  apply List.ext_getElem
  · simp
  · intro i h1 h2
    simp only [List.getElem_map, List.getElem_range]
    exact bufHas_getElem h2 hb

/-- Forward characterization of `read` on a held byte. -/
theorem read_ok {f : Nat → Nat} {p b : Nat} (h : p < 512) (hb : f p = b) :
    BytePacketBuffer.read ⟨f, p⟩ = .ok (b, ⟨f, p + 1⟩) := by
  show (if 512 ≤ p then (Except.error BufErr.endOfBuffer) else
    Except.ok (f p, ({ buf := f, pos := p + 1 } : BytePacketBuffer))) = _
  rw [if_neg (by omega), hb]

/-- Forward characterization of `read_u16` on held bytes. -/
theorem read_u16_ok {f : Nat → Nat} {p hi lo : Nat} (h : p + 2 ≤ 512)
    (hb : bufHas f p [hi, lo]) :
    BytePacketBuffer.read_u16 ⟨f, p⟩ =
      .ok (hi * 256 + lo, ⟨f, p + 2⟩) := by
  obtain ⟨h1, h2, _⟩ := hb
  simp only [BytePacketBuffer.read_u16, read_ok (show p < 512 by omega) h1,
    read_ok (show p + 1 < 512 by omega) h2]

/-- Forward characterization of `read_u32` on held bytes. -/
theorem read_u32_ok {f : Nat → Nat} {p a b c d : Nat} (h : p + 4 ≤ 512)
    (hb : bufHas f p [a, b, c, d]) :
    BytePacketBuffer.read_u32 ⟨f, p⟩ =
      .ok ((a * 256 + b) * 65536 + (c * 256 + d), ⟨f, p + 4⟩) := by
  obtain ⟨h1, h2, h3, h4, _⟩ := hb
  simp only [BytePacketBuffer.read_u32,
    read_u16_ok (show p + 2 ≤ 512 by omega)
      (show bufHas f p [a, b] from ⟨h1, h2, trivial⟩),
    read_u16_ok (show p + 2 + 2 ≤ 512 by omega)
      (show bufHas f (p + 2) [c, d] from ⟨by simpa using h3,
        by rw [show p + 2 + 1 = p + 1 + 1 + 1 by omega]; exact h4,
        trivial⟩)]

/-- Well-formed name for the round trip: every label of the dotted name is
nonempty, at most 63 bytes, and consists of ASCII bytes (below 128, so the
lossy UTF-8 decode of the source is the identity on them) that the
lowercase fold leaves unchanged (no uppercase ASCII). The ASCII bound
matters: on bytes at or above 128 the source applies Unicode lowercasing
and U+FFFD replacement, so such names are not transported verbatim and are
excluded from the supported round-trip set. -/
def wfName (n : List Nat) : Prop :=
  ∀ l ∈ splitOnDot n,
    (1 ≤ l.length ∧ l.length ≤ 63) ∧ ∀ b ∈ l, b < 128 ∧ lowerByte b = b

instance (n : List Nat) : Decidable (wfName n) := by
  unfold wfName; infer_instance

/-- Well-formed result code: a four-bit code that the open enumeration maps
back to itself. -/
def wfResultCode (rc : ResultCode) : Prop :=
  rc.to_num < 16 ∧ ResultCode.from_num rc.to_num = rc

instance (rc : ResultCode) : Decidable (wfResultCode rc) := by
  unfold wfResultCode; infer_instance

/-- Well-formed header fields for the round trip (the four counts are
recomputed by the writer, so only the other fields matter). -/
def wfHeader (h : DnsHeader) : Prop :=
  h.id < 65536 ∧ h.opcode < 16 ∧ wfResultCode h.rescode

instance (h : DnsHeader) : Decidable (wfHeader h) := by
  unfold wfHeader; infer_instance

/-- Well-formed question: name plus a query type that survives the numeric
round trip. -/
def wfQuestion (q : DnsQuestion) : Prop :=
  wfName q.name ∧ q.qtype.to_num < 65536 ∧
    QueryType.from_num q.qtype.to_num = q.qtype

instance (q : DnsQuestion) : Decidable (wfQuestion q) := by
  unfold wfQuestion; infer_instance

/-- Well-formed record of the supported type set: an address record with a
well-formed owner name, octets below 256 and a 32-bit ttl. -/
def wfRecord : DnsRecord → Prop
  | .A d addr ttl => wfName d ∧ addr.o1 < 256 ∧ addr.o2 < 256 ∧
      addr.o3 < 256 ∧ addr.o4 < 256 ∧ ttl < 4294967296
  | _ => False

instance (r : DnsRecord) : Decidable (wfRecord r) := by
  cases r <;> unfold wfRecord <;> infer_instance

/-- Well-formed packet of the supported type set. -/
def WfPacket (pk : DnsPacket) : Prop :=
  wfHeader pk.header ∧
  (∀ q ∈ pk.questions, wfQuestion q) ∧
  (∀ r ∈ pk.answers, wfRecord r) ∧
  (∀ r ∈ pk.authorities, wfRecord r) ∧
  (∀ r ∈ pk.resources, wfRecord r) ∧
  pk.questions.length < 65536 ∧ pk.answers.length < 65536 ∧
  pk.authorities.length < 65536 ∧ pk.resources.length < 65536

instance (pk : DnsPacket) : Decidable (WfPacket pk) := by
  unfold WfPacket; infer_instance

/-- A well-formed record satisfies the write-side shape predicate. -/
theorem wfRecord_recWf {r : DnsRecord} (h : wfRecord r) : recWf r := by
  cases r with
  | A d addr ttl =>
    exact ⟨d, addr, ttl, rfl, fun l hl => ((h.1 l hl).1).2⟩
  | UNKNOWN d q dl t => exact absurd h (by simp [wfRecord])
  | NS d hst t => exact absurd h (by simp [wfRecord])

/-- Rejoin dotted labels, the inverse of `splitOnDot`. -/
def joinDots : List (List Nat) → List Nat
  | [] => []
  | [l] => l
  | l :: ls => l ++ 46 :: joinDots ls

/-- `splitOnDot` never produces the empty list of labels. -/
theorem splitOnDot_ne_nil (n : List Nat) : splitOnDot n ≠ [] := by
  cases n with
  | nil => simp [splitOnDot]
  | cons b rest =>
    unfold splitOnDot
    by_cases h : b = 46
    · simp [h]
    · simp only [h, if_false]
      rcases hs : splitOnDot rest with _ | ⟨g, gs⟩ <;> simp

/-- Rejoining the split of a name gives the name back. -/
theorem joinDots_splitOnDot (n : List Nat) :
    joinDots (splitOnDot n) = n := by
  induction n with
  | nil => rfl
  | cons b rest ih =>
    unfold splitOnDot
    by_cases h : b = 46
    · simp only [h, if_pos rfl]
      rcases hs : splitOnDot rest with _ | ⟨g, gs⟩
      · exact absurd hs (splitOnDot_ne_nil rest)
      · show [] ++ 46 :: joinDots (g :: gs) = 46 :: rest
        rw [hs] at ih
        rw [List.nil_append, ih]
    · simp only [h, if_false]
      rcases hs : splitOnDot rest with _ | ⟨g, gs⟩
      · exact absurd hs (splitOnDot_ne_nil rest)
      · rw [hs] at ih
        cases gs with
        | nil =>
          show b :: g = b :: rest
          rw [show joinDots [g] = g from rfl] at ih
          rw [ih]
        | cons g2 gs2 =>
          show (b :: g) ++ 46 :: joinDots (g2 :: gs2) = b :: rest
          rw [List.cons_append, ← ih]
          rfl

/-- Accumulator semantics of the label loop of `read_qname`: each label is
appended to the accumulator behind the current delimiter, lowercased. -/
def foldAcc : List Nat → List Nat → List (List Nat) → List Nat
  | acc, _, [] => acc
  | acc, delim, l :: ls =>
    foldAcc (acc ++ delim ++ l.map (fun b => lowerByte (b % 256))) [46] ls

/-- Forward characterization of the `read_qname` loop over an uncompressed
stretch of length-prefixed labels followed by the zero terminator: it
accumulates the lowercased labels, dot-separated, and ends one past the
terminator. -/
theorem readQnameAux_ok {ls : List (List Nat)} :
    ∀ {f : Nat → Nat} {sp p fuel jumps : Nat} {acc delim : List Nat},
      jumps ≤ 5 → sp < 512 →
      (∀ l ∈ ls, 1 ≤ l.length ∧ l.length ≤ 63) →
      bufHas f p (((ls.map labelBytes).flatten) ++ [0]) →
      p + ((((ls.map labelBytes).flatten) ++ [0])).length ≤ 512 →
      ls.length + 1 ≤ fuel →
      readQnameAux ⟨f, sp⟩ fuel p false jumps acc delim =
        .ok (foldAcc acc delim ls,
          ⟨f, p + ((((ls.map labelBytes).flatten) ++ [0])).length⟩) := by
  induction ls with
  | nil =>
    intro f sp p fuel jumps acc delim hj hsp _ hb hfit hfuel
    have hfit2 : p + 1 ≤ 512 := by simpa using hfit
    cases fuel with
    | zero => exact absurd hfuel (by omega)
    | succ fuel =>
      rw [readQnameAux]
      rw [if_neg (show ¬ 5 < jumps by omega)]
      have hf : f p = 0 := by simpa [bufHas] using hb
      have hget : BytePacketBuffer.get ⟨f, sp⟩ p = .ok 0 := by
        show (if 512 ≤ sp then (Except.error BufErr.endOfBuffer) else
          if p < 512 then Except.ok (f p) else
            Except.error BufErr.panicIndex) = _
        rw [if_neg (show ¬ 512 ≤ sp by omega),
          if_pos (show p < 512 by omega), hf]
      simp only [hget]
      rfl
  | cons l ls ih =>
    intro f sp p fuel jumps acc delim hj hsp hwf hb hfit hfuel
    have hl := hwf l (List.mem_cons_self l ls)
    have hwire : ((((l :: ls).map labelBytes).flatten) ++ [0]) =
        labelBytes l ++ (((ls.map labelBytes).flatten) ++ [0]) := by
      simp
    have hlablen : (labelBytes l).length = l.length + 1 := by
      simp [labelBytes]
    rw [hwire] at hb ⊢
    rw [List.length_append, hlablen]
    rw [bufHas_append] at hb
    obtain ⟨hbl, hbrest⟩ := hb
    rw [hlablen, show p + (l.length + 1) = p + 1 + l.length by omega]
      at hbrest
    rw [hwire] at hfit
    have hfit2 : p + 1 + l.length +
        ((((ls.map labelBytes).flatten) ++ [0])).length ≤ 512 := by
      rw [List.length_append, hlablen] at hfit; omega
    have hrest1 : 1 ≤ ((((ls.map labelBytes).flatten) ++ [0])).length := by
      simp
    cases fuel with
    | zero =>
      rw [List.length_cons] at hfuel
      exact absurd hfuel (by omega)
    | succ fuel =>
      rw [readQnameAux]
      rw [if_neg (show ¬ 5 < jumps by omega)]
      have hfp : f p = l.length := by
        have h0 := hbl.1
        rwa [Nat.mod_eq_of_lt (by omega)] at h0
      have hget : BytePacketBuffer.get ⟨f, sp⟩ p = .ok l.length := by
        show (if 512 ≤ sp then (Except.error BufErr.endOfBuffer) else
          if p < 512 then Except.ok (f p) else
            Except.error BufErr.panicIndex) = _
        rw [if_neg (show ¬ 512 ≤ sp by omega),
          if_pos (show p < 512 by omega), hfp]
      simp only [hget]
      rw [if_neg (show ¬ 192 ≤ l.length by omega),
        if_neg (show ¬ l.length = 0 by omega)]
      have hbl2 : bufHas f (p + 1) (l.map (· % 256)) := hbl.2
      have hrange : BytePacketBuffer.get_range ⟨f, sp⟩ (p + 1) l.length =
          .ok (l.map (· % 256)) := by
        show (if 512 ≤ p + 1 + l.length then
          (Except.error BufErr.endOfBuffer) else
          Except.ok ((List.range l.length).map fun i => f (p + 1 + i))) = _
        rw [if_neg (show ¬ 512 ≤ p + 1 + l.length by omega)]
        have hr := range_map_of_bufHas hbl2
        rw [List.length_map] at hr
        rw [hr]
      simp only [hrange]
      rw [ih hj hsp (fun x hx => hwf x (List.mem_cons_of_mem l hx)) hbrest
        (show p + 1 + l.length +
          ((((ls.map labelBytes).flatten) ++ [0])).length ≤ 512 from hfit2)
        (show ls.length + 1 ≤ fuel by
          rw [List.length_cons] at hfuel; omega)]
      rw [show (l.map (· % 256)).map lowerByte =
        l.map (fun b => lowerByte (b % 256)) from by
          rw [List.map_map]; rfl]
      congr 1
      congr 1
      congr 1
      omega

/-- The lowercase fold is the identity on the bytes of a well-formed
label. -/
theorem map_lower_id {l : List Nat}
    (hl : ∀ b ∈ l, b < 256 ∧ lowerByte b = b) :
    l.map (fun b => lowerByte (b % 256)) = l := by
  induction l with
  | nil => rfl
  | cons b bs ih =>
    have hb := hl b (List.mem_cons_self b bs)
    rw [List.map_cons, Nat.mod_eq_of_lt hb.1, hb.2,
      ih (fun x hx => hl x (List.mem_cons_of_mem b hx))]

/-- Accumulator form of the label fold once the delimiter is a dot. -/
theorem foldAcc_dots : ∀ (ls : List (List Nat)) (acc : List Nat),
    (∀ l ∈ ls, ∀ b ∈ l, b < 256 ∧ lowerByte b = b) →
    foldAcc acc [46] ls = acc ++ ((ls.map (fun g => 46 :: g)).flatten) := by
  intro ls
  induction ls with
  | nil => intro acc _; simp [foldAcc]
  | cons l ls ih =>
    intro acc hwf
    show foldAcc (acc ++ [46] ++ l.map (fun b => lowerByte (b % 256)))
      [46] ls = _
    rw [map_lower_id (hwf l (List.mem_cons_self l ls)),
      ih _ (fun x hx => hwf x (List.mem_cons_of_mem l hx))]
    simp

/-- Joining labels equals the dotted-flatten form. -/
theorem joinDots_cons (l : List Nat) (ls : List (List Nat)) :
    joinDots (l :: ls) = l ++ ((ls.map (fun g => 46 :: g)).flatten) := by
  induction ls generalizing l with
  | nil => simp [joinDots]
  | cons g gs ih =>
    show l ++ 46 :: joinDots (g :: gs) = _
    rw [ih g]
    simp

/-- There are at most as many labels as label-encoding bytes. -/
theorem labels_le (ls : List (List Nat)) :
    ls.length ≤ ((ls.map labelBytes).flatten).length := by
  induction ls with
  | nil => simp
  | cons l rest ih =>
    simp only [List.map_cons, List.flatten_cons, List.length_append,
      List.length_cons, labelBytes, List.length_map]
    omega

/-- Forward characterization of `read_qname` on a held well-formed
uncompressed name starting at the shared cursor. -/
theorem read_qname_ok {f : Nat → Nat} {p : Nat} {name : List Nat}
    (hwf : wfName name) (hb : bufHas f p (qnameBytes name))
    (hfit : p + (qnameBytes name).length ≤ 512) :
    BytePacketBuffer.read_qname ⟨f, p⟩ =
      .ok (name, ⟨f, p + (qnameBytes name).length⟩) := by
  have hq : qnameBytes name =
      (((splitOnDot name).map labelBytes).flatten) ++ [0] := rfl
  have hlen1 : (qnameBytes name).length =
      (((splitOnDot name).map labelBytes).flatten).length + 1 := by
    rw [hq, List.length_append]; rfl
  have hfuel : (splitOnDot name).length + 1 ≤ 4200 := by
    have := labels_le (splitOnDot name)
    omega
  have hval : ∀ ls : List (List Nat),
      (∀ x ∈ ls, ∀ b ∈ x, b < 256 ∧ lowerByte b = b) → ls ≠ [] →
      foldAcc [] [] ls = joinDots ls := by
    intro ls hwl hne
    match ls with
    | l :: rest =>
      show foldAcc ([] ++ [] ++ l.map (fun b => lowerByte (b % 256)))
        [46] rest = _
      rw [map_lower_id (hwl l (List.mem_cons_self l rest))]
      rw [foldAcc_dots rest _ (fun x hx => hwl x (List.mem_cons_of_mem l hx))]
      rw [joinDots_cons]
      simp
  rw [hq] at hb hfit
  show readQnameAux ⟨f, p⟩ 4200 p false 0 [] [] = _
  rw [readQnameAux_ok (by omega) (show p < 512 by
      simp only [List.length_append, List.length_cons, List.length_nil]
        at hfit
      omega)
    (fun l hl => (hwf l hl).1) hb hfit hfuel]
  rw [hval (splitOnDot name)
    (fun x hx b hb => ⟨by have h8 := ((hwf x hx).2 b hb).1; omega,
      ((hwf x hx).2 b hb).2⟩)
    (splitOnDot_ne_nil name)]
  rw [joinDots_splitOnDot name]
  rw [hq]

/-- The high flags byte is a byte. -/
theorem flagsA_lt (h : DnsHeader) (hop : h.opcode < 16) : h.flagsA < 256 := by
  have h1 : h.response.toNat ≤ 1 := by cases h.response <;> simp
  have h2 : h.authoritative_answer.toNat ≤ 1 := by
    cases h.authoritative_answer <;> simp
  have h3 : h.truncated_message.toNat ≤ 1 := by
    cases h.truncated_message <;> simp
  have h4 : h.recursion_desired.toNat ≤ 1 := by
    cases h.recursion_desired <;> simp
  unfold DnsHeader.flagsA
  omega

/-- The low flags byte is a byte. -/
theorem flagsB_lt (h : DnsHeader) (hrc : h.rescode.to_num < 16) :
    h.flagsB < 256 := by
  have h1 : h.recursion_available.toNat ≤ 1 := by
    cases h.recursion_available <;> simp
  have h2 : h.z.toNat ≤ 1 := by cases h.z <;> simp
  unfold DnsHeader.flagsB
  omega

/-- Bit extraction from the high flags byte recovers each flag. -/
theorem flagsA_bits (r a t d : Bool) (op : Nat) (hop : op < 16) :
    decide ((r.toNat * 128 + op % 16 * 8 + a.toNat * 4 + t.toNat * 2 +
      d.toNat) % 2 = 1) = d ∧
    decide ((r.toNat * 128 + op % 16 * 8 + a.toNat * 4 + t.toNat * 2 +
      d.toNat) / 2 % 2 = 1) = t ∧
    decide ((r.toNat * 128 + op % 16 * 8 + a.toNat * 4 + t.toNat * 2 +
      d.toNat) / 4 % 2 = 1) = a ∧
    (r.toNat * 128 + op % 16 * 8 + a.toNat * 4 + t.toNat * 2 +
      d.toNat) / 8 % 16 = op ∧
    decide ((r.toNat * 128 + op % 16 * 8 + a.toNat * 4 + t.toNat * 2 +
      d.toNat) / 128 % 2 = 1) = r := by
  rcases r <;> rcases a <;> rcases t <;> rcases d <;>
    refine ⟨?_, ?_, ?_, ?_, ?_⟩ <;>
    simp only [Bool.toNat_true, Bool.toNat_false, decide_eq_true_eq,
      decide_eq_false_iff_not] <;>
    omega

/-- Bit extraction from the low flags byte recovers each field. -/
theorem flagsB_bits (ra z : Bool) (rc : Nat) (hrc : rc < 16) :
    (ra.toNat * 128 + z.toNat * 64 + rc % 16) % 16 = rc ∧
    decide ((ra.toNat * 128 + z.toNat * 64 + rc % 16) / 64 % 2 = 1) = z ∧
    decide ((ra.toNat * 128 + z.toNat * 64 + rc % 16) / 128 % 2 = 1) = ra := by
  rcases ra <;> rcases z <;>
    refine ⟨?_, ?_, ?_⟩ <;>
    simp only [Bool.toNat_true, Bool.toNat_false, decide_eq_true_eq,
      decide_eq_false_iff_not] <;>
    omega

/-- Forward characterization of the header reader on held header bytes. -/
theorem readHeader_ok {f : Nat → Nat} {p : Nat} {h : DnsHeader}
    (hwf : wfHeader h)
    (hqd : h.questions < 65536) (han : h.answers < 65536)
    (hns : h.authoritative_entries < 65536)
    (har : h.resource_entries < 65536)
    (hb : bufHas f p (headerBytes h)) (hfit : p + 12 ≤ 512) :
    DnsHeader.read ⟨f, p⟩ = .ok (h, ⟨f, p + 12⟩) := by
  obtain ⟨hid, hop, hrc1, hrc2⟩ := hwf
  have hA := flagsA_lt h hop
  have hB := flagsB_lt h hrc1
  have hsplit : headerBytes h = u16Bytes h.id ++
      ([h.flagsA % 256, h.flagsB % 256] ++ (u16Bytes h.questions ++
        (u16Bytes h.answers ++ (u16Bytes h.authoritative_entries ++
          u16Bytes h.resource_entries)))) := by
    simp [headerBytes, List.append_assoc]
  rw [hsplit] at hb
  rw [bufHas_append] at hb
  obtain ⟨hb1, hbrest⟩ := hb
  rw [bufHas_append] at hbrest
  obtain ⟨hb2, hbrest⟩ := hbrest
  rw [bufHas_append] at hbrest
  obtain ⟨hb3, hbrest⟩ := hbrest
  rw [bufHas_append] at hbrest
  obtain ⟨hb4, hbrest⟩ := hbrest
  rw [bufHas_append] at hbrest
  obtain ⟨hb5, hb6⟩ := hbrest
  simp only [DnsHeader.read,
    read_u16_ok (show p + 2 ≤ 512 by omega) hb1,
    read_u16_ok (show p + 2 + 2 ≤ 512 by omega) hb2,
    read_u16_ok (show p + 2 + 2 + 2 ≤ 512 by omega) hb3,
    read_u16_ok (show p + 2 + 2 + 2 + 2 ≤ 512 by omega) hb4,
    read_u16_ok (show p + 2 + 2 + 2 + 2 + 2 ≤ 512 by omega) hb5,
    read_u16_ok (show p + 2 + 2 + 2 + 2 + 2 + 2 ≤ 512 by omega) hb6]
  rw [show h.id / 256 % 256 * 256 + h.id % 256 = h.id by omega]
  rw [show (h.flagsA % 256 * 256 + h.flagsB % 256) / 256 = h.flagsA by omega]
  rw [show (h.flagsA % 256 * 256 + h.flagsB % 256) % 256 = h.flagsB by omega]
  rw [show h.questions / 256 % 256 * 256 + h.questions % 256 =
    h.questions by omega]
  rw [show h.answers / 256 % 256 * 256 + h.answers % 256 = h.answers by omega]
  rw [show h.authoritative_entries / 256 % 256 * 256 +
    h.authoritative_entries % 256 = h.authoritative_entries by omega]
  rw [show h.resource_entries / 256 % 256 * 256 +
    h.resource_entries % 256 = h.resource_entries by omega]
  have hfa : h.flagsA = h.response.toNat * 128 + h.opcode % 16 * 8 +
      h.authoritative_answer.toNat * 4 + h.truncated_message.toNat * 2 +
      h.recursion_desired.toNat := rfl
  have hfb : h.flagsB = h.recursion_available.toNat * 128 +
      h.z.toNat * 64 + h.rescode.to_num % 16 := rfl
  obtain ⟨ba1, ba2, ba3, ba4, ba5⟩ :=
    flagsA_bits h.response h.authoritative_answer h.truncated_message
      h.recursion_desired h.opcode hop
  obtain ⟨bb1, bb2, bb3⟩ :=
    flagsB_bits h.recursion_available h.z h.rescode.to_num hrc1
  rw [hfa, hfb, ba1, ba2, ba3, ba4, ba5, bb1, bb2, bb3, hrc2]

/-- Forward characterization of the question reader on held question
bytes. -/
theorem readQuestion_ok {f : Nat → Nat} {p : Nat} {q : DnsQuestion}
    (hwf : wfQuestion q) (hb : bufHas f p (questionBytes q))
    (hfit : p + (questionBytes q).length ≤ 512) :
    DnsQuestion.read ⟨f, p⟩ =
      .ok (q, ⟨f, p + (questionBytes q).length⟩) := by
  obtain ⟨hn, ht, hq⟩ := hwf
  have hsplit : questionBytes q = qnameBytes q.name ++
      (u16Bytes q.qtype.to_num ++ u16Bytes 1) := by
    simp [questionBytes, List.append_assoc]
  have hlen : (questionBytes q).length = (qnameBytes q.name).length + 4 := by
    simp [questionBytes, u16Bytes]
  rw [hsplit] at hb
  rw [bufHas_append] at hb
  obtain ⟨hb1, hbrest⟩ := hb
  rw [bufHas_append] at hbrest
  obtain ⟨hb2, hb3⟩ := hbrest
  rw [hlen] at hfit ⊢
  simp only [DnsQuestion.read,
    read_qname_ok hn hb1 (show p + (qnameBytes q.name).length ≤ 512 by omega),
    read_u16_ok (show p + (qnameBytes q.name).length + 2 ≤ 512 by omega) hb2,
    read_u16_ok (show p + (qnameBytes q.name).length + 2 + 2 ≤ 512 by omega)
      (show bufHas f (p + (qnameBytes q.name).length + 2)
        [1 / 256 % 256, 1 % 256] from hb3)]
  rw [show q.qtype.to_num / 256 % 256 * 256 + q.qtype.to_num % 256 =
    q.qtype.to_num by omega]
  rw [hq]
  rfl

/-- Forward characterization of the record reader on a held address
record. -/
theorem readRecordA_ok {f : Nat → Nat} {p : Nat} {d : List Nat}
    {addr : Ipv4Addr} {ttl : Nat}
    (hwf : wfRecord (.A d addr ttl))
    (hb : bufHas f p (recordBytes (.A d addr ttl)))
    (hfit : p + (recordBytes (.A d addr ttl)).length ≤ 512) :
    DnsRecord.read ⟨f, p⟩ =
      .ok (.A d addr ttl,
        ⟨f, p + (recordBytes (.A d addr ttl)).length⟩) := by
  obtain ⟨hn, ho1, ho2, ho3, ho4, httl⟩ := hwf
  have hsplit : recordBytes (.A d addr ttl) = qnameBytes d ++
      (u16Bytes 1 ++ (u16Bytes 1 ++ (u32Bytes ttl ++ (u16Bytes 4 ++
        [addr.o1 % 256, addr.o2 % 256, addr.o3 % 256, addr.o4 % 256])))) := by
    simp [recordBytes, List.append_assoc]
  have hlen : (recordBytes (.A d addr ttl)).length =
      (qnameBytes d).length + 14 := by
    simp [recordBytes, u16Bytes, u32Bytes]
  rw [hsplit] at hb
  rw [bufHas_append] at hb
  obtain ⟨hb1, hbrest⟩ := hb
  rw [bufHas_append] at hbrest
  obtain ⟨hb2, hbrest⟩ := hbrest
  rw [bufHas_append] at hbrest
  obtain ⟨hb3, hbrest⟩ := hbrest
  rw [bufHas_append] at hbrest
  obtain ⟨hb4, hbrest⟩ := hbrest
  rw [bufHas_append] at hbrest
  obtain ⟨hb5, hb6⟩ := hbrest
  rw [hlen] at hfit ⊢
  simp only [DnsRecord.read,
    read_qname_ok hn hb1 (show p + (qnameBytes d).length ≤ 512 by omega),
    read_u16_ok (show p + (qnameBytes d).length + 2 ≤ 512 by omega) hb2,
    read_u16_ok (show p + (qnameBytes d).length + 2 + 2 ≤ 512 by omega) hb3,
    read_u32_ok (show p + (qnameBytes d).length + 2 + 2 + 4 ≤ 512 by omega)
      hb4,
    read_u16_ok
      (show p + (qnameBytes d).length + 2 + 2 + 4 + 2 ≤ 512 by omega) hb5]
  rw [show (ttl / 16777216 % 256 * 256 + ttl / 65536 % 256) * 65536 +
    (ttl / 256 % 256 * 256 + ttl % 256) = ttl by omega]
  simp only [read_u32_ok
    (show p + (qnameBytes d).length + 8 + 2 + 4 ≤ 512 by omega)
    (show bufHas f (p + (qnameBytes d).length + 8 + 2)
      [addr.o1 % 256, addr.o2 % 256, addr.o3 % 256, addr.o4 % 256]
      from hb6)]
  rw [show (addr.o1 % 256 * 256 + addr.o2 % 256) * 65536 +
    (addr.o3 % 256 * 256 + addr.o4 % 256) =
    addr.o1 * 16777216 + addr.o2 * 65536 + addr.o3 * 256 + addr.o4 by omega]
  rw [show (addr.o1 * 16777216 + addr.o2 * 65536 + addr.o3 * 256 + addr.o4) /
    16777216 % 256 = addr.o1 by omega]
  rw [show (addr.o1 * 16777216 + addr.o2 * 65536 + addr.o3 * 256 + addr.o4) /
    65536 % 256 = addr.o2 by omega]
  rw [show (addr.o1 * 16777216 + addr.o2 * 65536 + addr.o3 * 256 + addr.o4) /
    256 % 256 = addr.o3 by omega]
  rw [show (addr.o1 * 16777216 + addr.o2 * 65536 + addr.o3 * 256 + addr.o4) %
    256 = addr.o4 by omega]
  rfl

/-- Forward characterization of the counted question loop. -/
theorem readN_questions_ok {qs : List DnsQuestion} :
    ∀ {f : Nat → Nat} {p : Nat},
      (∀ q ∈ qs, wfQuestion q) →
      bufHas f p ((qs.map questionBytes).flatten) →
      p + ((qs.map questionBytes).flatten).length ≤ 512 →
      readN DnsQuestion.read qs.length ⟨f, p⟩ =
        .ok (qs, ⟨f, p + ((qs.map questionBytes).flatten).length⟩) := by
  induction qs with
  | nil => intro f p _ _ _; rfl
  | cons q rest ih =>
    intro f p hwf hb hfit
    have hflat : (((q :: rest).map questionBytes).flatten) =
        questionBytes q ++ ((rest.map questionBytes).flatten) := by simp
    rw [hflat] at hb hfit ⊢
    rw [bufHas_append] at hb
    obtain ⟨hb1, hb2⟩ := hb
    rw [List.length_append] at hfit ⊢
    rw [List.length_cons]
    simp only [readN,
      readQuestion_ok (hwf q (List.mem_cons_self q rest)) hb1
        (show p + (questionBytes q).length ≤ 512 by omega),
      ih (fun x hx => hwf x (List.mem_cons_of_mem q hx)) hb2
        (show p + (questionBytes q).length +
          ((rest.map questionBytes).flatten).length ≤ 512 by omega)]
    congr 1
    congr 1
    congr 1
    omega

/-- Forward characterization of the counted record loop over supported
records. -/
theorem readN_records_ok {rs : List DnsRecord} :
    ∀ {f : Nat → Nat} {p : Nat},
      (∀ r ∈ rs, wfRecord r) →
      bufHas f p ((rs.map recordBytes).flatten) →
      p + ((rs.map recordBytes).flatten).length ≤ 512 →
      readN DnsRecord.read rs.length ⟨f, p⟩ =
        .ok (rs, ⟨f, p + ((rs.map recordBytes).flatten).length⟩) := by
  induction rs with
  | nil => intro f p _ _ _; rfl
  | cons r rest ih =>
    intro f p hwf hb hfit
    have hwr := hwf r (List.mem_cons_self r rest)
    cases r with
    | UNKNOWN d q dl t => exact absurd hwr (by simp [wfRecord])
    | NS d hst t => exact absurd hwr (by simp [wfRecord])
    | A d addr ttl =>
      have hflat : (((DnsRecord.A d addr ttl :: rest).map
          recordBytes).flatten) =
          recordBytes (DnsRecord.A d addr ttl) ++
            ((rest.map recordBytes).flatten) := by simp
      rw [hflat] at hb hfit ⊢
      rw [bufHas_append] at hb
      obtain ⟨hb1, hb2⟩ := hb
      rw [List.length_append] at hfit ⊢
      rw [List.length_cons]
      simp only [readN,
        readRecordA_ok hwr hb1
          (show p + (recordBytes (DnsRecord.A d addr ttl)).length ≤ 512 by
            omega),
        ih (fun x hx => hwf x (List.mem_cons_of_mem _ hx)) hb2
          (show p + (recordBytes (DnsRecord.A d addr ttl)).length +
            ((rest.map recordBytes).flatten).length ≤ 512 by omega)]
      congr 1
      congr 1
      congr 1
      omega

/-- Forward characterization of the whole-message decoder on a held
supported packet image. -/
theorem from_buffer_ok {pk : DnsPacket} {f : Nat → Nat}
    (hwf : WfPacket pk) (hb : bufHas f 0 (packetBytes pk))
    (hfit : (packetBytes pk).length ≤ 512) :
    DnsPacket.from_buffer ⟨f, 0⟩ =
      .ok (pk.recount, ⟨f, (packetBytes pk).length⟩) := by
  obtain ⟨hH, hQ, hA, hAu, hR, hlq, hla, hlau, hlr⟩ := hwf
  have hsplit : packetBytes pk = headerBytes pk.recountHeader ++
      (((pk.questions.map questionBytes).flatten) ++
        (((pk.answers.map recordBytes).flatten) ++
          (((pk.authorities.map recordBytes).flatten) ++
            ((pk.resources.map recordBytes).flatten)))) := by
    simp [packetBytes, List.append_assoc]
  have hlen : (packetBytes pk).length = 12 +
      ((((pk.questions.map questionBytes).flatten).length) +
        ((((pk.answers.map recordBytes).flatten).length) +
          ((((pk.authorities.map recordBytes).flatten).length) +
            (((pk.resources.map recordBytes).flatten).length)))) := by
    rw [hsplit]
    simp [List.length_append, headerBytes_length]
  have hfit2 : 12 + (((pk.questions.map questionBytes).flatten).length) +
      (((pk.answers.map recordBytes).flatten).length) +
      (((pk.authorities.map recordBytes).flatten).length) +
      (((pk.resources.map recordBytes).flatten).length) ≤ 512 := by
    rw [hlen] at hfit; omega
  rw [hsplit] at hb
  rw [bufHas_append] at hb
  obtain ⟨hbH, hb⟩ := hb
  rw [bufHas_append] at hb
  obtain ⟨hb1, hb⟩ := hb
  rw [bufHas_append] at hb
  obtain ⟨hb2, hb⟩ := hb
  rw [bufHas_append] at hb
  obtain ⟨hb3, hb4⟩ := hb
  rw [headerBytes_length] at hb1 hb2 hb3 hb4
  rw [Nat.zero_add] at hb1 hb2 hb3 hb4
  have hcq : pk.recountHeader.questions = pk.questions.length :=
    Nat.mod_eq_of_lt hlq
  have hca : pk.recountHeader.answers = pk.answers.length :=
    Nat.mod_eq_of_lt hla
  have hcau : pk.recountHeader.authoritative_entries =
      pk.authorities.length :=
    Nat.mod_eq_of_lt hlau
  have hcr : pk.recountHeader.resource_entries = pk.resources.length :=
    Nat.mod_eq_of_lt hlr
  have hHr : wfHeader pk.recountHeader := hH
  simp only [DnsPacket.from_buffer,
    readHeader_ok hHr
      (show pk.recountHeader.questions < 65536 from hcq ▸ hlq)
      (show pk.recountHeader.answers < 65536 from hca ▸ hla)
      (show pk.recountHeader.authoritative_entries < 65536 from hcau ▸ hlau)
      (show pk.recountHeader.resource_entries < 65536 from hcr ▸ hlr)
      hbH (show (0 : Nat) + 12 ≤ 512 by omega),
    hcq, hca, hcau, hcr,
    readN_questions_ok hQ hb1
      (show 12 + ((pk.questions.map questionBytes).flatten).length ≤ 512 by
        omega),
    readN_records_ok hA hb2
      (show 12 + ((pk.questions.map questionBytes).flatten).length +
        ((pk.answers.map recordBytes).flatten).length ≤ 512 by omega),
    readN_records_ok hAu hb3
      (show 12 + ((pk.questions.map questionBytes).flatten).length +
        ((pk.answers.map recordBytes).flatten).length +
        ((pk.authorities.map recordBytes).flatten).length ≤ 512 by omega),
    readN_records_ok hR hb4
      (show 12 + ((pk.questions.map questionBytes).flatten).length +
        ((pk.answers.map recordBytes).flatten).length +
        ((pk.authorities.map recordBytes).flatten).length +
        ((pk.resources.map recordBytes).flatten).length ≤ 512 by omega)]
  rw [hlen]
  congr 1
  congr 1
  congr 1
  omega

/-- Encode a packet into a fresh buffer and decode the resulting bytes from
position 0, as one transmit/receive cycle does with the transmitted image. -/
def decodeEncode (pk : DnsPacket) : Except BufErr DnsPacket :=
  match DnsPacket.write pk BytePacketBuffer.new with
  | .error e => .error e
  | .ok s =>
    match DnsPacket.from_buffer ⟨s.buf, 0⟩ with
    | .error e => .error e
    | .ok (out, _) => .ok out

/-! ## Claim C6 -/

/-- C6: for every header, question, record and message value within the
supported type set (address records; names whose labels are nonempty, at
most 63 bytes, ASCII and lowercase-stable — the set the codec transports
verbatim, since non-ASCII bytes are rewritten by the lossy UTF-8 decode
and Unicode lowercasing of the source; numeric fields within their wire
widths) whose encoding fits the 512-byte buffer, decoding the bytes
produced by encoding yields the same value field for field except the four
header counts, which are recomputed at encode time; after the round trip
the counts equal the lengths of the corresponding sequences. -/
theorem c6_decode_encode_round_trip (pk : DnsPacket)
    (hwf : WfPacket pk) (hfit : (packetBytes pk).length ≤ 512) :
    decodeEncode pk = .ok pk.recount ∧
    pk.recount.header.questions = pk.recount.questions.length ∧
    pk.recount.header.answers = pk.recount.answers.length ∧
    pk.recount.header.authoritative_entries =
      pk.recount.authorities.length ∧
    pk.recount.header.resource_entries = pk.recount.resources.length := by
  obtain ⟨hH, hQ, hA, hAu, hR, hlq, hla, hlau, hlr⟩ := hwf
  refine ⟨?_, Nat.mod_eq_of_lt hlq, Nat.mod_eq_of_lt hla,
    Nat.mod_eq_of_lt hlau, Nat.mod_eq_of_lt hlr⟩
  have hwr := @writePacket_ok pk (fun _ => 0) 0
    (fun q hq l hl => ((hQ q hq).1 l hl).1.2)
    (fun r hr => wfRecord_recWf (hA r hr))
    (fun r hr => wfRecord_recWf (hAu r hr))
    (fun r hr => wfRecord_recWf (hR r hr))
    (show (0 : Nat) + (packetBytes pk).length ≤ 512 by omega)
  have hrd := @from_buffer_ok pk (placeBytes (fun _ => 0) 0 (packetBytes pk))
    ⟨hH, hQ, hA, hAu, hR, hlq, hla, hlau, hlr⟩
    bufHas_placeBytes hfit
  simp only [decodeEncode, BytePacketBuffer.new, hwr, hrd]

/-- Concrete packet of the C6 witness: one question and one address-record
answer for the name abc. -/
def c6pk : DnsPacket :=
  { header := { DnsHeader.new with id := 6666, recursion_desired := true },
    questions := [⟨[97, 98, 99], .A⟩],
    answers := [.A [97, 98, 99] ⟨1, 2, 3, 4⟩ 60],
    authorities := [], resources := [] }

/-- C6 witness: the round trip at the concrete packet, with both
hypotheses discharged by evaluation. -/
theorem c6_decode_encode_round_trip_witness :
    WfPacket c6pk ∧ (packetBytes c6pk).length ≤ 512 ∧
    decodeEncode c6pk = .ok c6pk.recount :=
  ⟨by decide, by decide,
   (c6_decode_encode_round_trip c6pk (by decide) (by decide)).1⟩
